import Mathlib

/-!
# Rating widget (`script.js`): a shallow embedding

The script keeps an array of review records in one `localStorage` slot as JSON
text, renders a filtered and date-sorted list of them and shows aggregate
statistics.  Every function of the script is embedded as a Lean function over
explicit state; the platform services it calls (`localStorage`, `JSON`,
`parseInt`, `String.prototype.trim`, `Array.prototype.sort`,
`Number.prototype.toFixed`, `Date`) are modelled after ECMAScript, with the
limits of each model written at its definition.

Left out, because no function embedded here reads them: the click and hover handlers
of the stars with `updateStarDisplay` and `updateRatingText`, the classes of the filter
buttons, the widths of the progress bars, and the timed removal of a toast.
-/

namespace RatingWebpage

/-! ## JavaScript strings and numbers -/

/-- JavaScript strings, as sequences of characters (code points). -/
abbrev JsString := List Char

/-- The decimal digit character of a number below ten. -/
def digitChar : Nat → Char
  | 0 => '0' | 1 => '1' | 2 => '2' | 3 => '3' | 4 => '4'
  | 5 => '5' | 6 => '6' | 7 => '7' | 8 => '8' | _ => '9'

/-- The value of a decimal digit character. -/
def digitVal (c : Char) : Option Nat :=
  if c = '0' then some 0 else if c = '1' then some 1 else if c = '2' then some 2
  else if c = '3' then some 3 else if c = '4' then some 4 else if c = '5' then some 5
  else if c = '6' then some 6 else if c = '7' then some 7 else if c = '8' then some 8
  else if c = '9' then some 9 else none

/-- Decimal digits of `n`, most significant first; `fuel` bounds the number of digits. -/
def natDigits : Nat → Nat → JsString
  | 0, _ => []
  | fuel + 1, n => if n < 10 then [digitChar n] else natDigits fuel (n / 10) ++ [digitChar (n % 10)]

/-- `Number::toString` on a non-negative integer below 10^21: its decimal digits. -/
def natToString (n : Nat) : JsString := natDigits (n + 1) n

/-- `Number::toString` on an integer of magnitude below 10^21. -/
def intToString (i : Int) : JsString :=
  if i < 0 then '-' :: natToString i.natAbs else natToString i.natAbs

/-- Reads decimal digits off the front of `s`, accumulating their value onto `acc`. -/
def readDigits (acc : Nat) : JsString → Nat × JsString
  | [] => (acc, [])
  | c :: t =>
    match digitVal c with
    | some v => readDigits (acc * 10 + v) t
    | none => (acc, c :: t)

/-- The largest magnitude below which every integer is a JavaScript number: 2^53. -/
def safeBound : Nat := 9007199254740992

/-! ## JSON -/

/-- The JavaScript values the script serialises: JSON values with integer numbers,
plus `NaN` (which `parseInt` can produce).  Numbers stand for JavaScript numbers
only while their magnitude is below `safeBound`. -/
inductive Json where
  | null
  | bool (b : Bool)
  | num (n : Int)
  | nan
  | str (s : JsString)
  | arr (xs : List Json)
  | obj (kvs : List (JsString × Json))
  deriving Repr

/-- Lower-case hexadecimal digit of a number below sixteen. -/
def hexChar (d : Nat) : Char :=
  if d < 10 then digitChar d
  else if d = 10 then 'a' else if d = 11 then 'b' else if d = 12 then 'c'
  else if d = 13 then 'd' else if d = 14 then 'e' else 'f'

/-- The value of a hexadecimal digit character, either case. -/
def hexVal (c : Char) : Option Nat :=
  match digitVal c with
  | some v => some v
  | none =>
    if c = 'a' ∨ c = 'A' then some 10 else if c = 'b' ∨ c = 'B' then some 11
    else if c = 'c' ∨ c = 'C' then some 12 else if c = 'd' ∨ c = 'D' then some 13
    else if c = 'e' ∨ c = 'E' then some 14 else if c = 'f' ∨ c = 'F' then some 15
    else none

/-- `QuoteJSONString` on one character: the two-character escapes, `\u00xx` for the
other control characters, the character itself otherwise. -/
def quoteChar (c : Char) : JsString :=
  if c = '"' then ['\\', '"']
  else if c = '\\' then ['\\', '\\']
  else if c.val.toNat = 8 then ['\\', 'b']
  else if c.val.toNat = 9 then ['\\', 't']
  else if c.val.toNat = 10 then ['\\', 'n']
  else if c.val.toNat = 12 then ['\\', 'f']
  else if c.val.toNat = 13 then ['\\', 'r']
  else if c.val.toNat < 32 then
    ['\\', 'u', '0', '0', hexChar (c.val.toNat / 16), hexChar (c.val.toNat % 16)]
  else [c]

/-- The characters of a JSON string literal between its quotes. -/
def quoteBody : JsString → JsString
  | [] => []
  | c :: t => quoteChar c ++ quoteBody t

/-- `QuoteJSONString`. -/
def quoteJSONString (s : JsString) : JsString := '"' :: quoteBody s ++ ['"']

mutual
/-- `JSON.stringify` without indentation: `SerializeJSONProperty`. -/
def stringifyValue : Json → JsString
  | .null => ['n', 'u', 'l', 'l']
  | .bool b => if b then ['t', 'r', 'u', 'e'] else ['f', 'a', 'l', 's', 'e']
  | .num n => intToString n
  | .nan => ['n', 'u', 'l', 'l']
  | .str s => quoteJSONString s
  | .arr xs => '[' :: stringifyElements xs ++ [']']
  | .obj kvs => '{' :: stringifyMembers kvs ++ ['}']
/-- The elements of an array, separated by commas. -/
def stringifyElements : List Json → JsString
  | [] => []
  | [x] => stringifyValue x
  | x :: y :: t => stringifyValue x ++ ',' :: stringifyElements (y :: t)
/-- The members of an object, separated by commas. -/
def stringifyMembers : List (JsString × Json) → JsString
  | [] => []
  | [(k, v)] => quoteJSONString k ++ ':' :: stringifyValue v
  | (k, v) :: y :: t => quoteJSONString k ++ ':' :: stringifyValue v ++ ',' :: stringifyMembers (y :: t)
end

/-- Outcome of reading a value off the front of a text.  `unmodelled` marks texts
whose value lies outside this model (fractions, exponents, integers of magnitude
2^53 or more, minus zero, surrogate escapes, objects with repeated or all-digit
keys); nothing is stated about them. -/
inductive Parsed (α : Type) where
  | ok (v : α) (rest : JsString)
  | syntaxError
  | unmodelled
  deriving Repr

/-- Applies `f` to the value read. -/
def Parsed.map {α β : Type} (f : α → β) : Parsed α → Parsed β
  | .ok v rest => .ok (f v) rest
  | .syntaxError => .syntaxError
  | .unmodelled => .unmodelled

/-- JSON white space: space, tab, line feed, carriage return. -/
def isJsonWs (c : Char) : Bool := c = ' ' || c = '\t' || c = '\n' || c = '\r'

/-- Drops leading JSON white space. -/
def skipWs : JsString → JsString
  | [] => []
  | c :: t => if isJsonWs c then skipWs t else c :: t

/-- Whether a code is a UTF-16 surrogate. -/
def isSurrogate (n : Nat) : Bool := 55296 ≤ n && n ≤ 57343

/-- The character a two-character escape `\e` stands for. -/
def unescape (e : Char) : Option Char :=
  if e = '"' then some '"' else if e = '\\' then some '\\' else if e = '/' then some '/'
  else if e = 'b' then some (Char.ofNat 8) else if e = 'f' then some (Char.ofNat 12)
  else if e = 'n' then some '\n' else if e = 'r' then some '\r' else if e = 't' then some '\t'
  else none

/-- The code written by four hexadecimal digits. -/
def hex4 (a b c d : Char) : Option Nat :=
  match hexVal a, hexVal b, hexVal c, hexVal d with
  | some x, some y, some z, some w => some (((x * 16 + y) * 16 + z) * 16 + w)
  | _, _, _, _ => none

/-- Reads a JSON string literal after its opening quote. -/
def parseStringTail : JsString → Parsed JsString
  | [] => .syntaxError
  | c :: rest =>
    if c = '"' then .ok [] rest
    else if c = '\\' then
      match rest with
      | [] => .syntaxError
      | e :: rest1 =>
        if e = 'u' then
          match rest1 with
          | h1 :: h2 :: h3 :: h4 :: rest2 =>
            match hex4 h1 h2 h3 h4 with
            | none => .syntaxError
            | some n =>
              if isSurrogate n then .unmodelled
              else (parseStringTail rest2).map (fun s => Char.ofNat n :: s)
          | _ => .syntaxError
        else
          match unescape e with
          | none => .syntaxError
          | some x => (parseStringTail rest1).map (fun s => x :: s)
    else if c.val.toNat < 32 then .syntaxError
    else (parseStringTail rest).map (fun s => c :: s)

/-- Whether the text starts with a decimal digit. -/
def startsWithDigit : JsString → Bool
  | [] => false
  | c :: _ => (digitVal c).isSome

/-- Whether the text continues a number with a fraction or an exponent. -/
def startsFraction : JsString → Bool
  | [] => false
  | c :: _ => c = '.' || c = 'e' || c = 'E'

/-- Reads the digits of a JSON number (after its sign, when `neg`). -/
def parseDigits (neg : Bool) : JsString → Parsed Json
  | [] => .syntaxError
  | c :: t =>
    if (digitVal c).isNone then .syntaxError
    else if c = '0' && startsWithDigit t then .syntaxError
    else
      let r := readDigits 0 (c :: t)
      if startsFraction r.2 then .unmodelled
      else if safeBound ≤ r.1 || (neg && r.1 = 0) then .unmodelled
      else .ok (.num (if neg then -(r.1 : Int) else (r.1 : Int))) r.2

/-- Reads a JSON number. -/
def parseNumber : JsString → Parsed Json
  | '-' :: t => parseDigits true t
  | s => parseDigits false s

/-- Reads one of the literals `null`, `true`, `false`. -/
def parseLiteral : JsString → Parsed Json
  | 'n' :: 'u' :: 'l' :: 'l' :: rest => .ok .null rest
  | 't' :: 'r' :: 'u' :: 'e' :: rest => .ok (.bool true) rest
  | 'f' :: 'a' :: 'l' :: 's' :: 'e' :: rest => .ok (.bool false) rest
  | _ => .syntaxError

/-- Whether the keys of a parsed object are within the model: pairwise distinct
(JavaScript keeps the last of repeated keys) and none made of digits only
(JavaScript enumerates index-like keys first). -/
def keysModelled (kvs : List (JsString × Json)) : Bool :=
  (kvs.map Prod.fst).Nodup && (kvs.map Prod.fst).all (fun k => !(k.all (fun c => (digitVal c).isSome)))

mutual
/-- Reads a JSON value; `fuel` bounds the number of nested and chained reads. -/
def parseValue : Nat → JsString → Parsed Json
  | 0, _ => .unmodelled
  | fuel + 1, s =>
    match skipWs s with
    | [] => .syntaxError
    | c :: rest =>
      if c = '[' then
        match skipWs rest with
        | ']' :: rest1 => .ok (.arr []) rest1
        | _ => (parseElements fuel rest).map Json.arr
      else if c = '{' then
        match skipWs rest with
        | '}' :: rest1 => .ok (.obj []) rest1
        | _ =>
          match parseMembers fuel rest with
          | .ok kvs rest1 => if keysModelled kvs then .ok (.obj kvs) rest1 else .unmodelled
          | .syntaxError => .syntaxError
          | .unmodelled => .unmodelled
      else if c = '"' then (parseStringTail rest).map Json.str
      else if c = '-' || (digitVal c).isSome then parseNumber (c :: rest)
      else parseLiteral (c :: rest)
/-- Reads the elements of an array up to and including its closing bracket. -/
def parseElements : Nat → JsString → Parsed (List Json)
  | 0, _ => .unmodelled
  | fuel + 1, s =>
    match parseValue fuel s with
    | .ok v rest =>
      match skipWs rest with
      | ',' :: rest1 => (parseElements fuel rest1).map (fun vs => v :: vs)
      | ']' :: rest1 => .ok [v] rest1
      | _ => .syntaxError
    | .syntaxError => .syntaxError
    | .unmodelled => .unmodelled
/-- Reads the members of an object up to and including its closing brace. -/
def parseMembers : Nat → JsString → Parsed (List (JsString × Json))
  | 0, _ => .unmodelled
  | fuel + 1, s =>
    match skipWs s with
    | '"' :: rest =>
      match parseStringTail rest with
      | .ok k rest1 =>
        match skipWs rest1 with
        | ':' :: rest2 =>
          match parseValue fuel rest2 with
          | .ok v rest3 =>
            match skipWs rest3 with
            | ',' :: rest4 => (parseMembers fuel rest4).map (fun kvs => (k, v) :: kvs)
            | '}' :: rest4 => .ok [(k, v)] rest4
            | _ => .syntaxError
          | .syntaxError => .syntaxError
          | .unmodelled => .unmodelled
        | _ => .syntaxError
      | .syntaxError => .syntaxError
      | .unmodelled => .unmodelled
    | _ => .syntaxError
end

/-- What a call returns or throws.  `unmodelled` marks runs that leave the model. -/
inductive Outcome (α : Type) where
  | ok (v : α)
  | syntaxError
  | typeError
  | unmodelled
  deriving Repr

/-- `JSON.parse`: a value followed by white space only, a `SyntaxError` otherwise. -/
def JSON.parse (text : JsString) : Outcome Json :=
  match parseValue (text.length + 1) text with
  | .ok v rest => if skipWs rest = [] then .ok v else .syntaxError
  | .syntaxError => .syntaxError
  | .unmodelled => .unmodelled

/-- `JSON.stringify` with one argument. -/
def JSON.stringify (v : Json) : JsString := stringifyValue v

/-! ## The review store -/

/-- The browser's `localStorage`: the text stored under each key, `none` for an
absent key.  Quota errors of `setItem` are not modelled. -/
abbrev LocalStorage := JsString → Option JsString

/-- The storage key, `STORAGE_KEY` of the script. -/
def STORAGE_KEY : JsString := "projectRatings".toList

/-- `localStorage.getItem(key)`. -/
def LocalStorage.getItem (ls : LocalStorage) (key : JsString) : Option JsString := ls key

/-- `localStorage.setItem(key, value)`. -/
def LocalStorage.setItem (ls : LocalStorage) (key value : JsString) : LocalStorage :=
  fun k => if k = key then some value else ls k

/-- The script's `getReviews`: `data ? JSON.parse(data) : []`, where `data` is falsy
when the key is absent (`null`) or holds the empty string.  An exception of
`JSON.parse` propagates: the function has no handler. -/
def getReviews (ls : LocalStorage) : Outcome Json :=
  match ls.getItem STORAGE_KEY with
  | none => .ok (.arr [])
  | some data => if data = [] then .ok (.arr []) else JSON.parse data

/-- The script's `saveReview`: load, `push`, write the whole array back.  `push` on a
loaded value that is not an array is a `TypeError`. -/
def saveReview (review : Json) (ls : LocalStorage) : Outcome LocalStorage :=
  match getReviews ls with
  | .ok (.arr reviews) =>
    .ok (ls.setItem STORAGE_KEY (JSON.stringify (.arr (reviews ++ [review]))))
  | .ok _ => .typeError
  | .syntaxError => .syntaxError
  | .typeError => .typeError
  | .unmodelled => .unmodelled

/-- A review record of the data model: the object the submit handler builds. -/
structure Review where
  id : Int
  rating : Int
  name : JsString
  email : JsString
  comment : JsString
  date : JsString
  deriving DecidableEq, Repr

/-- The JavaScript object of a review, with its properties in creation order. -/
def Review.toJson (r : Review) : Json :=
  .obj [("id".toList, .num r.id), ("rating".toList, .num r.rating),
        ("name".toList, .str r.name), ("email".toList, .str r.email),
        ("comment".toList, .str r.comment), ("date".toList, .str r.date)]

/-- The array of the objects of a list of reviews. -/
def reviewsJson (rs : List Review) : Json := .arr (rs.map Review.toJson)

/-- Both numbers of the review are integers JavaScript represents exactly. -/
def Review.Safe (r : Review) : Prop := r.id.natAbs < safeBound ∧ r.rating.natAbs < safeBound

instance (r : Review) : Decidable r.Safe := by unfold Review.Safe; infer_instance

/-- Reads a loaded value as a review record: an object with exactly the six
properties of the data model, in creation order, its numbers safe integers. -/
def asReview : Json → Option Review
  | .obj [(k1, .num id), (k2, .num rating), (k3, .str name), (k4, .str email),
          (k5, .str comment), (k6, .str date)] =>
    if k1 = "id".toList ∧ k2 = "rating".toList ∧ k3 = "name".toList ∧ k4 = "email".toList
        ∧ k5 = "comment".toList ∧ k6 = "date".toList
        ∧ id.natAbs < safeBound ∧ rating.natAbs < safeBound then
      some { id := id, rating := rating, name := name, email := email,
             comment := comment, date := date }
    else none
  | _ => none

/-- Reads loaded array elements as review records, all or nothing. -/
def asReviews : List Json → Option (List Review)
  | [] => some []
  | x :: t =>
    match asReview x, asReviews t with
    | some r, some rs => some (r :: rs)
    | _, _ => none

/-- The stored collection as review records.  The functions below read properties of
the loaded elements; a loaded value that is not an array of review records is
outside the model. -/
def loadReviews (ls : LocalStorage) : Outcome (List Review) :=
  match getReviews ls with
  | .ok (.arr xs) =>
    match asReviews xs with
    | some rs => .ok rs
    | none => .unmodelled
  | .ok _ => .unmodelled
  | .syntaxError => .syntaxError
  | .typeError => .typeError
  | .unmodelled => .unmodelled

/-! ## `parseInt`, `trim`, `escapeHtml` -/

/-- ECMAScript white space and line terminators (`StrWhiteSpaceChar`). -/
def isStrWhiteSpace (c : Char) : Bool :=
  let n := c.val.toNat
  n = 9 || n = 10 || n = 11 || n = 12 || n = 13 || n = 32 || n = 160 || n = 5760
    || (8192 ≤ n && n ≤ 8202) || n = 8232 || n = 8233 || n = 8239 || n = 8287
    || n = 12288 || n = 65279

/-- Drops leading white space. -/
def trimStart : JsString → JsString
  | [] => []
  | c :: t => if isStrWhiteSpace c then trimStart t else c :: t

/-- `String.prototype.trim`. -/
def trim (s : JsString) : JsString := (trimStart (trimStart s).reverse).reverse

/-- What `parseInt` returns: `NaN`, an integer, or a number outside the model
(magnitude 2^53 or more, where JavaScript rounds). -/
inductive IntResult where
  | nan
  | int (i : Int)
  | unmodelled
  deriving DecidableEq, Repr

/-- Reads hexadecimal digits off the front of `s`, with their count. -/
def readHexDigits (acc count : Nat) : JsString → Nat × Nat
  | [] => (acc, count)
  | c :: t =>
    match hexVal c with
    | some v => readHexDigits (acc * 16 + v) (count + 1) t
    | none => (acc, count)

/-- The result of `parseInt` from the value and the number of the digits read: `NaN`
when there is no digit. -/
def finishParseInt (neg : Bool) (value count : Nat) : IntResult :=
  if count = 0 then .nan
  else if safeBound ≤ value then .unmodelled
  else .int (if neg then -(value : Int) else (value : Int))

/-- The digits part of `parseInt`, after white space and sign: hexadecimal after a
prefix `0x` or `0X`, decimal otherwise. -/
def parseIntDigits (neg : Bool) (s : JsString) : IntResult :=
  match s with
  | '0' :: 'x' :: t => finishParseInt neg (readHexDigits 0 0 t).1 (readHexDigits 0 0 t).2
  | '0' :: 'X' :: t => finishParseInt neg (readHexDigits 0 0 t).1 (readHexDigits 0 0 t).2
  | _ => finishParseInt neg (readDigits 0 s).1 (s.length - (readDigits 0 s).2.length)

/-- `parseInt(string)` with no radix argument. -/
def parseInt (s : JsString) : IntResult :=
  match trimStart s with
  | '-' :: t => parseIntDigits true t
  | '+' :: t => parseIntDigits false t
  | t => parseIntDigits false t

/-- The replacement `escapeHtml` makes for one character: `map[m]` for the five
characters of the pattern `/[&<>"']/g`, the character itself otherwise. -/
def escapeChar (c : Char) : JsString :=
  if c = '&' then "&amp;".toList
  else if c = '<' then "&lt;".toList
  else if c = '>' then "&gt;".toList
  else if c = '"' then "&quot;".toList
  else if c = '\'' then "&#039;".toList
  else [c]

/-- The script's `escapeHtml`. -/
def escapeHtml : JsString → JsString
  | [] => []
  | c :: t => escapeChar c ++ escapeHtml t

/-! ## Dates and sorting -/

/-- The services of the browser that ECMAScript leaves to the implementation. -/
structure Platform where
  /-- The time value of `new Date(text)`, `none` for an invalid date. -/
  dateValue : JsString → Option Int
  /-- The text of `new Date(text).toLocaleDateString('en-US', ...)` with numeric year,
  short month and numeric day, in the browser's time zone. -/
  toLocaleDateString : JsString → JsString
  /-- The order `Array.prototype.sort` leaves when some date is invalid (the comparator
  then returns `NaN` and need not be consistent): implementation-defined. -/
  sortInvalidDates : List Review → List Review
  /-- Whatever the comparator, `sort` reorders the elements of the array. -/
  sortInvalidDates_perm : ∀ reviews, (sortInvalidDates reviews).Perm reviews

/-- Inserts `a` before the first element it does not have to follow. -/
def orderedInsert {α : Type} (le : α → α → Bool) (a : α) : List α → List α
  | [] => [a]
  | b :: t => if le a b then a :: b :: t else b :: orderedInsert le a t

/-- `Array.prototype.sort` for a consistent comparator, where `le a b` says the
comparator's value on `(a, b)` is not positive: ECMAScript fixes the result as the
stable sort, whatever algorithm the engine runs; here, insertion from the right. -/
def sortWith {α : Type} (le : α → α → Bool) : List α → List α
  | [] => []
  | a :: t => orderedInsert le a (sortWith le t)

/-- Whether the comparator `(a, b) => new Date(b.date) - new Date(a.date)` is not
positive on `(a, b)`.  An invalid date makes the difference `NaN`, which `sort`
reads as zero. -/
def newestFirst (P : Platform) (a b : Review) : Bool :=
  match P.dateValue b.date, P.dateValue a.date with
  | some tb, some ta => decide (tb - ta ≤ 0)
  | _, _ => true

/-- The value of a text made of decimal digits only. -/
def digitsValue (s : JsString) : Option Nat :=
  if s ≠ [] ∧ s.all (fun c => (digitVal c).isSome) = true then some (readDigits 0 s).1 else none

/-- The value of the `len` digits of `s` from position `start`. -/
def fieldAt (s : JsString) (start len : Nat) : Option Nat :=
  digitsValue ((s.drop start).take len)

/-- Whether a year of the Gregorian calendar is a leap year. -/
def isLeapYear (y : Nat) : Bool := (y % 4 = 0 && y % 100 ≠ 0) || y % 400 = 0

/-- The number of days of a month. -/
def daysInMonth (y m : Nat) : Nat :=
  if m = 2 then (if isLeapYear y then 29 else 28)
  else if m = 4 ∨ m = 6 ∨ m = 9 ∨ m = 11 then 30 else 31

/-- The number of days from 1970-01-01 to a date of year 1 or later. -/
def daysFromCivil (y m d : Nat) : Int :=
  let y1 := if m ≤ 2 then y - 1 else y
  let dayOfYear := (153 * ((m + 9) % 12) + 2) / 5 + d - 1
  ((y1 * 365 + y1 / 4 + y1 / 400 + dayOfYear : Nat) : Int) - ((y1 / 100 : Nat) : Int) - 719468

/-- The time value of a date in one of the two ISO forms `YYYY-MM-DD` and
`YYYY-MM-DDTHH:mm:ss.sssZ` (the form `toISOString` writes), both read as UTC. -/
def isoDateValue (s : JsString) : Option Int :=
  match fieldAt s 0 4, fieldAt s 5 2, fieldAt s 8 2 with
  | some y, some m, some d =>
    if s[4]? = some '-' ∧ s[7]? = some '-' ∧ 1 ≤ y ∧ 1 ≤ m ∧ m ≤ 12 ∧ 1 ≤ d
        ∧ d ≤ daysInMonth y m then
      if s.length = 10 then some (daysFromCivil y m d * 86400000)
      else if s.length = 24 ∧ s[10]? = some 'T' ∧ s[13]? = some ':' ∧ s[16]? = some ':'
          ∧ s[19]? = some '.' ∧ s[23]? = some 'Z' then
        match fieldAt s 11 2, fieldAt s 14 2, fieldAt s 17 2, fieldAt s 20 3 with
        | some h, some mi, some sec, some ms =>
          if h ≤ 23 ∧ mi ≤ 59 ∧ sec ≤ 59 then
            some (daysFromCivil y m d * 86400000
              + ((h * 3600000 + mi * 60000 + sec * 1000 + ms : Nat) : Int))
          else none
        | _, _, _, _ => none
      else none
    else none
  | _, _, _ => none

/-- The short English name of a month. -/
def monthName (m : Nat) : JsString :=
  (["Jan", "Feb", "Mar", "Apr", "May", "Jun", "Jul", "Aug", "Sep", "Oct", "Nov",
    "Dec"].getD (m - 1) "").toList

/-- The `en-US` text of an ISO date with short month, in the time zone UTC. -/
def isoLocaleDate (s : JsString) : JsString :=
  match isoDateValue s, fieldAt s 0 4, fieldAt s 5 2, fieldAt s 8 2 with
  | some _, some y, some m, some d =>
    monthName m ++ ' ' :: natToString d ++ ',' :: ' ' :: natToString y
  | _, _, _, _ => "Invalid Date".toList

/-- A browser in the time zone UTC, for texts in the two ISO forms; every other
text is an invalid date on it. -/
def isoPlatform : Platform :=
  { dateValue := isoDateValue, toLocaleDateString := isoLocaleDate,
    sortInvalidDates := fun reviews => reviews,
    sortInvalidDates_perm := fun reviews => List.Perm.refl reviews }

/-! ## Application state -/

/-- The part of the page the script reads and writes.  The star elements' hover
state, the filter buttons' classes and the progress bars' widths are left out:
no function below reads them. -/
structure Dom where
  /-- The value of the hidden input `#rating`: the draft rating. -/
  ratingInput : JsString
  /-- The value of the field `#name`. -/
  nameInput : JsString
  /-- The value of the field `#email`. -/
  emailInput : JsString
  /-- The value of the field `#comment`. -/
  commentInput : JsString
  /-- Whether each star carries the class `active`. -/
  starsActive : List Bool
  /-- The text of `#ratingText`. -/
  ratingText : JsString
  /-- The text of `#reviewCount`. -/
  reviewCount : JsString
  /-- The markup of `#reviewsContainer`. -/
  reviewsContainer : JsString
  /-- The text of `#avgRating`. -/
  avgRating : JsString
  /-- The text of `#totalReviews`. -/
  totalReviews : JsString
  /-- The text of `#count-i`, for each `i`. -/
  countText : Int → JsString
  /-- The toasts shown so far, each with its message and type. -/
  toasts : List (JsString × JsString)

/-- The state the script works on. -/
structure App where
  storage : LocalStorage
  currentFilter : JsString
  dom : Dom

/-- How a handler ends: normally, or by one of the exceptions it lets through;
`unmodelled` marks runs that leave the model. -/
inductive Completion where
  | normal
  | syntaxError
  | typeError
  | rangeError
  | unmodelled
  deriving DecidableEq, Repr

/-- The state a handler leaves behind and how it ended. -/
structure Run where
  app : App
  completion : Completion

/-- Runs `next` when the run so far completed normally. -/
def Run.andThen (run : Run) (next : App → Run) : Run :=
  match run.completion with
  | .normal => next run.app
  | _ => run

/-- The completion for an exceptional outcome of a store function. -/
def Outcome.completion {α : Type} : Outcome α → Completion
  | .ok _ => .normal
  | .syntaxError => .syntaxError
  | .typeError => .typeError
  | .unmodelled => .unmodelled

/-- The script's `showToast`; the timed removal of the toast is not modelled. -/
def showToast (message type : JsString) (app : App) : App :=
  { app with dom := { app.dom with toasts := app.dom.toasts ++ [(message, type)] } }

/-! ## Rendering the list -/

/-- The filter step of `displayReviews`: every review for `'all'`, otherwise those
with `review.rating === parseInt(currentFilter)`; `none` when `parseInt` leaves the
model. -/
def filterReviews (currentFilter : JsString) (reviews : List Review) : Option (List Review) :=
  if currentFilter ≠ "all".toList then
    match parseInt currentFilter with
    | .int k => some (reviews.filter (fun review => decide (review.rating = k)))
    | .nan => some []
    | .unmodelled => none
  else some reviews

/-- Whether every review has a valid date. -/
def datesValid (P : Platform) (reviews : List Review) : Bool :=
  reviews.all (fun review => (P.dateValue review.date).isSome)

/-- The sort step of `displayReviews`. -/
def sortReviews (P : Platform) (reviews : List Review) : List Review :=
  if datesValid P reviews then sortWith (newestFirst P) reviews else P.sortInvalidDates reviews

/-- The value of `filteredReviews` after the sort of `displayReviews`; `none` when
`parseInt` leaves the model. -/
def displayedReviews (P : Platform) (currentFilter : JsString) (reviews : List Review) :
    Option (List Review) :=
  (filterReviews currentFilter reviews).map (sortReviews P)

/-- The star glyphs `'★'.repeat(rating) + '☆'.repeat(5 - rating)`; `none` for the
`RangeError` of a negative count. -/
def starsText (rating : Int) : Option JsString :=
  if 0 ≤ rating ∧ rating ≤ 5 then
    some (List.replicate rating.toNat '★' ++ List.replicate (5 - rating).toNat '☆')
  else none

/-- The card template up to the name. -/
def cardOpen : JsString :=
  "\n            <div class=\"review-card\">\n                <div class=\"review-header\">\n                    <div class=\"review-info\">\n                        <h3>".toList

/-- The card template between the name and the e-mail. -/
def cardAfterName : JsString := "</h3>\n                        <p>".toList

/-- The card template between the e-mail and the stars. -/
def cardAfterEmail : JsString :=
  "</p>\n                    </div>\n                    <div>\n                        <div class=\"review-rating\">".toList

/-- The card template between the stars and the date. -/
def cardAfterStars : JsString := "</div>\n                        <div class=\"review-date\">".toList

/-- The card template between the date and the comment. -/
def cardAfterDate : JsString :=
  "</div>\n                    </div>\n                </div>\n                <div class=\"review-comment\">".toList

/-- The card template after the comment. -/
def cardClose : JsString := "</div>\n            </div>\n        ".toList

/-- The markup of one review card, given the escaped name, e-mail and comment, the
star glyphs and the formatted date: the template literal of `displayReviews`. -/
def cardTemplate (name email stars formattedDate comment : JsString) : JsString :=
  cardOpen ++ name ++ cardAfterName ++ email ++ cardAfterEmail ++ stars ++ cardAfterStars
    ++ formattedDate ++ cardAfterDate ++ comment ++ cardClose

/-- The card of one review; `none` for a `RangeError`. -/
def renderCard (P : Platform) (review : Review) : Option JsString :=
  match starsText review.rating with
  | some stars =>
    some (cardTemplate (escapeHtml review.name) (escapeHtml review.email) stars
      (P.toLocaleDateString review.date) (escapeHtml review.comment))
  | none => none

/-- The cards of the reviews joined: `filteredReviews.map(...).join('')`. -/
def renderCards (P : Platform) : List Review → Option JsString
  | [] => some []
  | review :: t =>
    match renderCard P review, renderCards P t with
    | some card, some cards => some (card ++ cards)
    | _, _ => none

/-- The placeholder shown for an empty list. -/
def noReviewsHtml : JsString :=
  "<p class=\"no-reviews\">No reviews yet. Be the first to share your feedback!</p>".toList

/-- The script's `displayReviews`.  When the filter is `'all'`, `filteredReviews` is
the array `reviews` itself, which the sort reorders in place before its length is
shown. -/
def displayReviews (P : Platform) (app : App) : Run :=
  match loadReviews app.storage with
  | .ok reviews =>
    match displayedReviews P app.currentFilter reviews with
    | none => ⟨app, .unmodelled⟩
    | some filteredReviews =>
      let reviews1 := if app.currentFilter ≠ "all".toList then reviews else filteredReviews
      let dom1 := { app.dom with reviewCount := '(' :: natToString reviews1.length ++ [')'] }
      if filteredReviews.length = 0 then
        ⟨{ app with dom := { dom1 with reviewsContainer := noReviewsHtml } }, .normal⟩
      else
        match renderCards P filteredReviews with
        | some html => ⟨{ app with dom := { dom1 with reviewsContainer := html } }, .normal⟩
        | none => ⟨{ app with dom := dom1 }, .rangeError⟩
  | failed => ⟨app, failed.completion⟩

/-! ## Statistics -/

/-- A finite double: the number `mant / 2 ^ scale`, negated when `neg`. -/
structure Dyadic where
  neg : Bool
  mant : Nat
  scale : Nat
  deriving DecidableEq, Repr

/-- The position of the highest set bit of `n`, by halving; `fuel` bounds the steps. -/
def log2Floor : Nat → Nat → Nat
  | 0, _ => 0
  | fuel + 1, n => if 2 ≤ n then log2Floor fuel (n / 2) + 1 else 0

/-- The integer part of the binary logarithm of a positive number. -/
def floorLog2 (n : Nat) : Nat := log2Floor n n

/-- The binary scale at which the quotient `a / n` has a 53-bit integer part:
the least `k` with `n * 2 ^ 52 ≤ a * 2 ^ k`, for `0 < a < 2 ^ 53` and `0 < n`. -/
def divScale (a n : Nat) : Nat :=
  let k0 := 52 + floorLog2 n - floorLog2 a
  if n * 2 ^ 52 ≤ a * 2 ^ k0 then k0 else k0 + 1

/-- The integer nearest to `num / den`, the even one of two equally near. -/
def roundHalfEven (num den : Nat) : Nat :=
  let q := num / den
  let r := num % den
  if 2 * r < den then q else if den < 2 * r then q + 1 else if q % 2 = 0 then q else q + 1

/-- IEEE 754 double division `s / n` of two integers of magnitude below 2^53,
`n` positive: the quotient rounded to 53 significant bits, ties to even. -/
def divide (s : Int) (n : Nat) : Dyadic :=
  if s = 0 then ⟨false, 0, 0⟩
  else ⟨decide (s < 0), roundHalfEven (s.natAbs * 2 ^ divScale s.natAbs n) n, divScale s.natAbs n⟩

/-- The number of tenths `Number.prototype.toFixed(1)` prints for the magnitude of
`x`: the integer `t` with `t / 10 - x` closest to zero, the larger of two. -/
def tenths (x : Dyadic) : Nat := (20 * x.mant + 2 ^ x.scale) / 2 ^ (x.scale + 1)

/-- The text of a number of tenths, with one fractional digit. -/
def tenthsText (t : Nat) : JsString := natToString (t / 10) ++ '.' :: natToString (t % 10)

/-- `x.toFixed(1)` for a double of magnitude below 10^21. -/
def toFixed1 (x : Dyadic) : JsString :=
  if x.neg && x.mant ≠ 0 then '-' :: tenthsText (tenths x) else tenthsText (tenths x)

/-- The sum `reviews.reduce((sum, review) => sum + review.rating, 0)`, exact while
the partial sums stay below 2^53 in magnitude. -/
def sumRatings (reviews : List Review) : Int :=
  reviews.foldl (fun sum review => sum + review.rating) 0

/-- The text shown as the average rating for a non-empty collection. -/
def averageText (reviews : List Review) : JsString :=
  toFixed1 (divide (sumRatings reviews) reviews.length)

/-- The object `ratingCounts` as created: the keys 5 to 1, each with count 0. -/
def initialCounts : List (Int × Nat) := [(5, 0), (4, 0), (3, 0), (2, 0), (1, 0)]

/-- The step `ratingCounts[review.rating]++`.  For a rating that is not a key the
statement creates a new property, which the script never reads. -/
def incrementCount (rating : Int) (counts : List (Int × Nat)) : List (Int × Nat) :=
  counts.map (fun entry => if entry.1 = rating then (entry.1, entry.2 + 1) else entry)

/-- The object `ratingCounts` after the `forEach` over the reviews. -/
def ratingCounts (reviews : List Review) : List (Int × Nat) :=
  reviews.foldl (fun counts review => incrementCount review.rating counts) initialCounts

/-- The value of `ratingCounts[i]` for a key `i`. -/
def countOf (counts : List (Int × Nat)) (i : Int) : Nat :=
  match counts.find? (fun entry => decide (entry.1 = i)) with
  | some entry => entry.2
  | none => 0

/-- Sets the text of `#count-i`. -/
def Dom.setCount (dom : Dom) (i : Int) (text : JsString) : Dom :=
  { dom with countText := fun j => if j = i then text else dom.countText j }

/-- The script's `updateStatistics`. -/
def updateStatistics (app : App) : Run :=
  match loadReviews app.storage with
  | .ok reviews =>
    if reviews.length = 0 then
      let dom1 := { app.dom with avgRating := "0.0".toList, totalReviews := "0".toList }
      let dom2 := [1, 2, 3, 4, 5].foldl (fun dom i => Dom.setCount dom i "0".toList) dom1
      ⟨{ app with dom := dom2 }, .normal⟩
    else
      let dom1 := { app.dom with avgRating := averageText reviews,
                                 totalReviews := natToString reviews.length }
      let counts := ratingCounts reviews
      let dom2 := [5, 4, 3, 2, 1].foldl
        (fun dom i => Dom.setCount dom i (natToString (countOf counts i))) dom1
      ⟨{ app with dom := dom2 }, .normal⟩
  | failed => ⟨app, failed.completion⟩

/-! ## Handlers -/

/-- The number `parseInt` returned, as the value `JSON.stringify` will see. -/
def IntResult.toJson : IntResult → Json
  | .int i => .num i
  | _ => .nan

/-- The object `formData` the submit handler builds. -/
def formData (now : Int) (isoNow : JsString) (dom : Dom) : Json :=
  .obj [("id".toList, .num now), ("rating".toList, (parseInt dom.ratingInput).toJson),
        ("name".toList, .str (trim dom.nameInput)), ("email".toList, .str (trim dom.emailInput)),
        ("comment".toList, .str (trim dom.commentInput)), ("date".toList, .str isoNow)]

/-- The form after `ratingForm.reset()`, `ratingInput.value = ''`, the removal of
`active` from every star and the reset of the rating text.  The form's fields have
no declared default, so `reset` empties them. -/
def resetForm (dom : Dom) : Dom :=
  { dom with ratingInput := [], nameInput := [], emailInput := [], commentInput := [],
             starsActive := dom.starsActive.map (fun _ => false),
             ratingText := "Select a rating".toList }

/-- The `submit` handler of the form.  `now` is `Date.now()` and `isoNow` is
`new Date().toISOString()` at the time of the event. -/
def submitForm (P : Platform) (now : Int) (isoNow : JsString) (app : App) : Run :=
  if app.dom.ratingInput = [] then
    ⟨showToast "Please select a rating".toList "error".toList app, .normal⟩
  else if parseInt app.dom.ratingInput = .unmodelled then ⟨app, .unmodelled⟩
  else
    match saveReview (formData now isoNow app.dom) app.storage with
    | .ok storage1 =>
      let app1 := { app with storage := storage1, dom := resetForm app.dom }
      let app2 := showToast "Thank you for your feedback! 🎉".toList "success".toList app1
      (displayReviews P app2).andThen updateStatistics
    | failed => ⟨app, failed.completion⟩

/-- The script's `deleteReview`; `confirmed` is the answer to the `confirm` dialog. -/
def deleteReview (P : Platform) (confirmed : Bool) (id : Int) (app : App) : Run :=
  if confirmed then
    match loadReviews app.storage with
    | .ok reviews =>
      let reviews1 := reviews.filter (fun review => decide (review.id ≠ id))
      let storage1 := app.storage.setItem STORAGE_KEY (JSON.stringify (reviewsJson reviews1))
      let app1 := { app with storage := storage1 }
      ((displayReviews P app1).andThen updateStatistics).andThen
        (fun app2 => ⟨showToast "Review deleted successfully".toList "success".toList app2, .normal⟩)
    | failed => ⟨app, failed.completion⟩
  else ⟨app, .normal⟩

/-- The `click` handler of a filter button whose `data-filter` is `filter`. -/
def clickFilter (P : Platform) (filter : JsString) (app : App) : Run :=
  displayReviews P { app with currentFilter := filter }

/-- The script's `init`. -/
def init (P : Platform) (app : App) : Run :=
  (displayReviews P app).andThen updateStatistics

/-! ## Specification-side notions -/

/-- Spec side: the review `a` is at least as recent as `b` (both dates valid). -/
def notOlder (P : Platform) (a b : Review) : Bool :=
  match P.dateValue a.date, P.dateValue b.date with
  | some ta, some tb => decide (tb ≤ ta)
  | _, _ => false

/-- Spec side: `x` has the date of `r`. -/
def sameDate (P : Platform) (r x : Review) : Bool :=
  decide (P.dateValue x.date = P.dateValue r.date)

/-- Spec side: `out` is the stable sort of `selected` by date, most recent first:
a reordering of `selected` in which no review stands before a more recent one and
the reviews of each date keep the order they have in `selected`. -/
def IsStableSortByDateDesc (P : Platform) (selected out : List Review) : Prop :=
  out.Perm selected ∧ out.Pairwise (fun a b => notOlder P a b = true)
    ∧ ∀ r ∈ selected, out.filter (sameDate P r) = selected.filter (sameDate P r)

instance (P : Platform) (selected out : List Review) :
    Decidable (IsStableSortByDateDesc P selected out) := by
  unfold IsStableSortByDateDesc
  infer_instance

/-- Spec side: the reviews a filter value selects, in stored order: all of them for
`'all'`, those with the rating `k` for the filter `k`. -/
def selectedBy (filter : Option Int) (reviews : List Review) : List Review :=
  match filter with
  | none => reviews
  | some k => reviews.filter (fun review => decide (review.rating = k))

/-- Spec side: the text of a filter value, `'all'` or the rating. -/
def filterText (filter : Option Int) : JsString :=
  match filter with
  | none => "all".toList
  | some k => intToString k

/-- The time value of a review's date, zero for an invalid date. -/
def dateKey (P : Platform) (r : Review) : Int := (P.dateValue r.date).getD 0

/-- Spec side: `saveReview` called on each record in turn. -/
def saveReviews : List Json → LocalStorage → Outcome LocalStorage
  | [], ls => .ok ls
  | review :: rest, ls =>
    match saveReview review ls with
    | .ok ls1 => saveReviews rest ls1
    | failed => failed

/-! ## Sample states -/

/-- A page on which nothing has been entered or shown yet. -/
def blankDom : Dom :=
  { ratingInput := [], nameInput := [], emailInput := [], commentInput := [],
    starsActive := [false, false, false, false, false], ratingText := "Select a rating".toList,
    reviewCount := [], reviewsContainer := [], avgRating := [], totalReviews := [],
    countText := fun _ => [], toasts := [] }

/-- A browser with nothing in `localStorage`. -/
def emptyStorage : LocalStorage := fun _ => none

/-- A store whose payload was cut off in the middle of a record. -/
def corruptStorage : LocalStorage :=
  emptyStorage.setItem STORAGE_KEY "[\x7b\"id\":1700000000000,\"rating\":5,\"na".toList

/-- A fresh page whose draft rating input holds `6`, with the text fields filled in. -/
def draftSixApp : App :=
  { storage := emptyStorage, currentFilter := "all".toList,
    dom := { blankDom with ratingInput := "6".toList, nameInput := " Ann ".toList,
                           emailInput := "ann@example.org".toList,
                           commentInput := "fine".toList } }

/-- The record the submit handler stores from `draftSixApp`. -/
def draftSixReview : Review :=
  { id := 1700000000000, rating := 6, name := "Ann".toList, email := "ann@example.org".toList,
    comment := "fine".toList, date := "2023-11-14T22:13:20.000Z".toList }

/-- A review with the given rating, for statistics (which read the rating only). -/
def ratedReview (rating : Int) : Review :=
  { id := 1700000000000, rating := rating, name := [], email := [], comment := [],
    date := "2023-11-14T22:13:20.000Z".toList }

/-- Seven ratings of 5 and thirteen of 4: sum 87 over 20 reviews, mean 4.35. -/
def meanFourThirtyFive : List Review :=
  List.replicate 7 (ratedReview 5) ++ List.replicate 13 (ratedReview 4)

/-- Three ratings of 5 and one of 4: sum 19 over 4 reviews, mean 4.75. -/
def meanFourSeventyFive : List Review :=
  [ratedReview 5, ratedReview 5, ratedReview 5, ratedReview 4]

/-- Spec side: what to do with a mean exactly halfway between two tenths. -/
inductive TieRule where
  | up
  | down
  | even
  deriving DecidableEq, Repr

/-- Spec side: the mean `sum / n` rounded to one decimal place, as a number of
tenths: the nearest tenth, and for a mean halfway between two tenths the one the
rule names. -/
def roundedMeanTenths (rule : TieRule) (sum n : Nat) : Nat :=
  let q := (10 * sum) / n
  let r := (10 * sum) % n
  if 2 * r < n then q
  else if n < 2 * r then q + 1
  else
    match rule with
    | .up => q + 1
    | .down => q
    | .even => if q % 2 = 0 then q else q + 1

/-- The stored collection of the specification's example, with the remaining fields
filled in; the first comment carries markup. -/
def sampleReviews : List Review :=
  [{ id := 1704067200000, rating := 5, name := "Ann".toList, email := "ann@example.org".toList,
     comment := "<script>alert('x')</script>".toList, date := "2024-01-01".toList },
   { id := 1704153600000, rating := 3, name := "Bob & Co".toList, email := "bob@example.org".toList,
     comment := "good".toList, date := "2024-01-02".toList }]

/-- A store holding `sampleReviews` as the script writes them. -/
def sampleStorage : LocalStorage :=
  emptyStorage.setItem STORAGE_KEY (JSON.stringify (reviewsJson sampleReviews))

/-- A page over `sampleStorage` with the given filter selected. -/
def sampleApp (filter : JsString) : App :=
  { storage := sampleStorage, currentFilter := filter, dom := blankDom }

/-- A fresh page whose draft rating input holds `3`, as a click on the third star
leaves it. -/
def draftThreeApp : App :=
  { draftSixApp with dom := { draftSixApp.dom with ratingInput := "3".toList } }

/-! ## Proofs -/

/-! ### Sorting -/

theorem orderedInsert_perm {α : Type} (le : α → α → Bool) (a : α) :
    ∀ l : List α, (orderedInsert le a l).Perm (a :: l)
  | [] => List.Perm.refl _
  | b :: t => by
    unfold orderedInsert
    split
    · exact List.Perm.refl _
    · exact ((orderedInsert_perm le a t).cons b).trans (List.Perm.swap a b t)

theorem sortWith_perm {α : Type} (le : α → α → Bool) :
    ∀ l : List α, (sortWith le l).Perm l
  | [] => List.Perm.refl _
  | a :: t => by
    unfold sortWith
    exact (orderedInsert_perm le a _).trans ((sortWith_perm le t).cons a)

theorem filter_orderedInsert_pos {α : Type} (le : α → α → Bool) (p : α → Bool) (a : α)
    (hpa : p a = true) :
    ∀ l : List α, (∀ b ∈ l, le a b = false → p b = false) →
      (orderedInsert le a l).filter p = a :: l.filter p
  | [], _ => by simp [orderedInsert, hpa]
  | b :: t, h => by
    unfold orderedInsert
    by_cases hab : le a b = true
    · simp [hab, List.filter_cons, hpa]
    · have hab' : le a b = false := by simpa using hab
      have hpb : p b = false := h b (List.mem_cons_self _ _) hab'
      have ih := filter_orderedInsert_pos le p a hpa t
        (fun x hx => h x (List.mem_cons_of_mem _ hx))
      simp [hab', List.filter_cons, hpb, ih]

theorem filter_orderedInsert_neg {α : Type} (le : α → α → Bool) (p : α → Bool) (a : α)
    (hpa : p a = false) :
    ∀ l : List α, (orderedInsert le a l).filter p = l.filter p
  | [] => by simp [orderedInsert, hpa]
  | b :: t => by
    unfold orderedInsert
    by_cases hab : le a b = true
    · simp [hab, List.filter_cons, hpa]
    · have hab' : le a b = false := by simpa using hab
      simp [hab', List.filter_cons, filter_orderedInsert_neg le p a hpa t]

theorem pairwise_orderedInsert {α : Type} (le : α → α → Bool) (key : α → Int) (a : α) :
    ∀ l : List α, (∀ b ∈ l, le a b = decide (key b ≤ key a)) →
      l.Pairwise (fun x y => key y ≤ key x) →
      (orderedInsert le a l).Pairwise (fun x y => key y ≤ key x)
  | [], _, _ => by simp [orderedInsert]
  | b :: t, h, hs => by
    unfold orderedInsert
    have hb := h b (List.mem_cons_self _ _)
    rw [List.pairwise_cons] at hs
    by_cases hab : key b ≤ key a
    · have : le a b = true := by rw [hb]; simpa using hab
      rw [if_pos this]
      refine List.pairwise_cons.mpr ⟨?_, List.pairwise_cons.mpr hs⟩
      intro x hx
      rcases List.mem_cons.mp hx with rfl | hx
      · exact hab
      · exact le_trans (hs.1 x hx) hab
    · have : ¬ le a b = true := by rw [hb]; simpa using hab
      rw [if_neg this]
      refine List.pairwise_cons.mpr ⟨?_, ?_⟩
      · intro x hx
        rcases List.mem_cons.mp ((orderedInsert_perm le a t).mem_iff.mp hx) with rfl | hx
        · omega
        · exact hs.1 x hx
      · exact pairwise_orderedInsert le key a t
          (fun x hx => h x (List.mem_cons_of_mem _ hx)) hs.2

theorem pairwise_sortWith {α : Type} (le : α → α → Bool) (key : α → Int) :
    ∀ l : List α, (∀ a ∈ l, ∀ b ∈ l, le a b = decide (key b ≤ key a)) →
      (sortWith le l).Pairwise (fun x y => key y ≤ key x)
  | [], _ => by simp [sortWith]
  | a :: t, h => by
    unfold sortWith
    refine pairwise_orderedInsert le key a _ ?_ ?_
    · intro b hb
      exact h a (List.mem_cons_self _ _) b
        (List.mem_cons_of_mem _ ((sortWith_perm le t).mem_iff.mp hb))
    · exact pairwise_sortWith le key t
        (fun x hx y hy => h x (List.mem_cons_of_mem _ hx) y (List.mem_cons_of_mem _ hy))

theorem filter_sortWith {α : Type} (le : α → α → Bool) (p : α → Bool) :
    ∀ l : List α, (∀ a ∈ l, ∀ b ∈ l, p a = true → le a b = false → p b = false) →
      (sortWith le l).filter p = l.filter p
  | [], _ => by simp [sortWith]
  | a :: t, h => by
    unfold sortWith
    have ih := filter_sortWith le p t
      (fun x hx y hy => h x (List.mem_cons_of_mem _ hx) y (List.mem_cons_of_mem _ hy))
    by_cases hpa : p a = true
    · rw [filter_orderedInsert_pos le p a hpa, ih, List.filter_cons, if_pos hpa]
      intro b hb
      exact h a (List.mem_cons_self _ _) b
        (List.mem_cons_of_mem _ ((sortWith_perm le t).mem_iff.mp hb)) hpa
    · have hpa' : p a = false := by simpa using hpa
      rw [filter_orderedInsert_neg le p a hpa', ih, List.filter_cons, if_neg hpa]

theorem newestFirst_eq (P : Platform) (a b : Review)
    (ha : (P.dateValue a.date).isSome = true) (hb : (P.dateValue b.date).isSome = true) :
    newestFirst P a b = decide (dateKey P b ≤ dateKey P a) := by
  obtain ⟨ta, hta⟩ := Option.isSome_iff_exists.mp ha
  obtain ⟨tb, htb⟩ := Option.isSome_iff_exists.mp hb
  simp [newestFirst, dateKey, hta, htb]

theorem notOlder_iff (P : Platform) (a b : Review)
    (ha : (P.dateValue a.date).isSome = true) (hb : (P.dateValue b.date).isSome = true) :
    notOlder P a b = true ↔ dateKey P b ≤ dateKey P a := by
  obtain ⟨ta, hta⟩ := Option.isSome_iff_exists.mp ha
  obtain ⟨tb, htb⟩ := Option.isSome_iff_exists.mp hb
  simp [notOlder, dateKey, hta, htb]

theorem sameDate_iff (P : Platform) (r x : Review)
    (hr : (P.dateValue r.date).isSome = true) (hx : (P.dateValue x.date).isSome = true) :
    sameDate P r x = true ↔ dateKey P x = dateKey P r := by
  obtain ⟨tr, htr⟩ := Option.isSome_iff_exists.mp hr
  obtain ⟨tx, htx⟩ := Option.isSome_iff_exists.mp hx
  simp [sameDate, dateKey, htr, htx]

theorem sortReviews_stable (P : Platform) (l : List Review)
    (hv : ∀ r ∈ l, (P.dateValue r.date).isSome = true) :
    IsStableSortByDateDesc P l (sortReviews P l) := by
  have hall : datesValid P l = true := by
    simpa [datesValid, List.all_eq_true] using hv
  have hsort : sortReviews P l = sortWith (newestFirst P) l := by
    simp [sortReviews, hall]
  have hperm := sortWith_perm (newestFirst P) l
  rw [hsort]
  refine ⟨hperm, ?_, ?_⟩
  · have hp := pairwise_sortWith (newestFirst P) (dateKey P) l
      (fun a ha b hb => newestFirst_eq P a b (hv a ha) (hv b hb))
    refine hp.imp_of_mem ?_
    intro a b ha hb hab
    exact (notOlder_iff P a b (hv a (hperm.mem_iff.mp ha)) (hv b (hperm.mem_iff.mp hb))).mpr hab
  · intro r hr
    refine filter_sortWith (newestFirst P) (sameDate P r) l ?_
    intro a ha b hb hpa hab
    rw [newestFirst_eq P a b (hv a ha) (hv b hb)] at hab
    have h1 := (sameDate_iff P r a (hv r hr) (hv a ha)).mp hpa
    have h2 : ¬ dateKey P b ≤ dateKey P a := by simpa using hab
    by_contra hpb
    have hpb' : sameDate P r b = true := by simpa using hpb
    have h3 := (sameDate_iff P r b (hv r hr) (hv b hb)).mp hpb'
    omega

theorem sorted_unique_aux {α : Type} (key : α → Int) :
    ∀ l1 l2 : List α, l1.Pairwise (fun x y => key y ≤ key x) →
      l2.Pairwise (fun x y => key y ≤ key x) →
      (∀ r, r ∈ l1 ∨ r ∈ l2 → l1.filter (fun x => decide (key x = key r))
          = l2.filter (fun x => decide (key x = key r))) → l1 = l2
  | [], [], _, _, _ => rfl
  | [], b :: t2, _, _, h => by
    have := h b (Or.inr (List.mem_cons_self _ _))
    simp at this
  | a :: t1, [], _, _, h => by
    have := h a (Or.inl (List.mem_cons_self _ _))
    simp at this
  | a :: t1, b :: t2, h1, h2, h => by
    rw [List.pairwise_cons] at h1 h2
    have hkey : key a = key b := by
      by_contra hne
      have ha := h a (Or.inl (List.mem_cons_self _ _))
      have hb := h b (Or.inr (List.mem_cons_self _ _))
      have hne' : ¬ key b = key a := fun e => hne e.symm
      simp only [List.filter_cons, decide_True, if_true, hne, hne', decide_False,
        Bool.false_eq_true, if_false] at ha hb
      have ha2 : a ∈ t2 := by
        have : a ∈ List.filter (fun x => decide (key x = key a)) t2 := by
          rw [← ha]; exact List.mem_cons_self _ _
        exact (List.mem_filter.mp this).1
      have hb1 : b ∈ t1 := by
        have : b ∈ List.filter (fun x => decide (key x = key b)) t1 := by
          rw [hb]; exact List.mem_cons_self _ _
        exact (List.mem_filter.mp this).1
      have := h2.1 a ha2
      have := h1.1 b hb1
      omega
    have hab : a = b := by
      have ha := h a (Or.inl (List.mem_cons_self _ _))
      simp only [List.filter_cons, decide_True, if_true, hkey] at ha
      exact (List.cons.inj ha).1
    subst hab
    have htail : t1 = t2 := by
      refine sorted_unique_aux key t1 t2 h1.2 h2.2 ?_
      intro r hr
      have hr' : r ∈ a :: t1 ∨ r ∈ a :: t2 :=
        hr.imp (List.mem_cons_of_mem _) (List.mem_cons_of_mem _)
      have := h r hr'
      simp only [List.filter_cons] at this
      split at this
      · exact (List.cons.inj this).2
      · exact this
    rw [htail]

theorem stableSort_unique (P : Platform) (selected out1 out2 : List Review)
    (hv : ∀ r ∈ selected, (P.dateValue r.date).isSome = true)
    (h1 : IsStableSortByDateDesc P selected out1)
    (h2 : IsStableSortByDateDesc P selected out2) : out1 = out2 := by
  obtain ⟨p1, s1, f1⟩ := h1
  obtain ⟨p2, s2, f2⟩ := h2
  have key_sorted : ∀ out : List Review, out.Perm selected →
      out.Pairwise (fun a b => notOlder P a b = true) →
      out.Pairwise (fun x y => dateKey P y ≤ dateKey P x) := by
    intro out hp hs
    refine hs.imp_of_mem ?_
    intro a b ha hb hab
    exact (notOlder_iff P a b (hv a (hp.mem_iff.mp ha)) (hv b (hp.mem_iff.mp hb))).mp hab
  have key_filter : ∀ out : List Review, out.Perm selected → ∀ r ∈ selected,
      out.filter (fun x => decide (dateKey P x = dateKey P r)) = out.filter (sameDate P r) := by
    intro out hp r hr
    refine List.filter_congr ?_
    intro x hx
    have := sameDate_iff P r x (hv r hr) (hv x (hp.mem_iff.mp hx))
    by_cases hs : sameDate P r x = true
    · simp [hs, this.mp hs]
    · have hne : ¬ dateKey P x = dateKey P r := fun e => hs (this.mpr e)
      simp [hs, hne]
  refine sorted_unique_aux (dateKey P) out1 out2 (key_sorted out1 p1 s1) (key_sorted out2 p2 s2) ?_
  intro r hr
  have hr' : r ∈ selected := hr.elim (fun h => p1.mem_iff.mp h) (fun h => p2.mem_iff.mp h)
  rw [key_filter out1 p1 r hr', key_filter out2 p2 r hr', f1 r hr', f2 r hr']

theorem sortReviews_perm (P : Platform) (l : List Review) : (sortReviews P l).Perm l := by
  unfold sortReviews
  split
  · exact sortWith_perm _ l
  · exact P.sortInvalidDates_perm l

theorem filterReviews_filterText (filter : Option Int) (reviews : List Review)
    (hrange : ∀ k, filter = some k → 1 ≤ k ∧ k ≤ 5) :
    filterReviews (filterText filter) reviews = some (selectedBy filter reviews) := by
  cases filter with
  | none => simp [filterReviews, filterText, selectedBy]
  | some k =>
    obtain ⟨h1, h5⟩ := hrange k rfl
    have hp : parseInt (intToString k) = .int k ∧ intToString k ≠ "all".toList := by
      interval_cases k <;> exact ⟨by rfl, by decide⟩
    simp only [filterReviews, filterText, selectedBy, hp.1, if_pos hp.2]

theorem displayedReviews_filterText (P : Platform) (filter : Option Int) (reviews : List Review)
    (hrange : ∀ k, filter = some k → 1 ≤ k ∧ k ≤ 5) :
    displayedReviews P (filterText filter) reviews
      = some (sortReviews P (selectedBy filter reviews)) := by
  simp [displayedReviews, filterReviews_filterText filter reviews hrange]

theorem selectedBy_subset (filter : Option Int) (reviews : List Review) :
    ∀ r ∈ selectedBy filter reviews, r ∈ reviews := by
  intro r hr
  cases filter with
  | none => exact hr
  | some k => exact (List.mem_filter.mp hr).1

/-- C6: for reviews with valid dates and a filter `'all'` or `'1'` to `'5'`, the list
`displayReviews` renders is the stable sort by date, most recent first, of the
reviews the filter selects (all of them, or those with that rating); it is the only
such list, and its cards are the markup written to the container. -/
theorem displayReviews_renders_stable_sort (P : Platform) (app : App)
    (reviews : List Review) (filter : Option Int)
    (hload : loadReviews app.storage = .ok reviews)
    (hdates : ∀ r ∈ reviews, (P.dateValue r.date).isSome = true)
    (hfilter : app.currentFilter = filterText filter)
    (hrange : ∀ k, filter = some k → 1 ≤ k ∧ k ≤ 5) :
    ∃ out, displayedReviews P app.currentFilter reviews = some out
      ∧ IsStableSortByDateDesc P (selectedBy filter reviews) out
      ∧ (∀ other, IsStableSortByDateDesc P (selectedBy filter reviews) other → other = out)
      ∧ (∀ html, out ≠ [] → renderCards P out = some html →
          (displayReviews P app).app.dom.reviewsContainer = html) := by
  have hv : ∀ r ∈ selectedBy filter reviews, (P.dateValue r.date).isSome = true :=
    fun r hr => hdates r (selectedBy_subset filter reviews r hr)
  have hd := displayedReviews_filterText P filter reviews hrange
  have hs := sortReviews_stable P (selectedBy filter reviews) hv
  refine ⟨sortReviews P (selectedBy filter reviews), by rw [hfilter, hd], hs, ?_, ?_⟩
  · intro other ho
    exact stableSort_unique P _ other _ hv ho hs
  · intro html hne hhtml
    have hlen : ¬ (sortReviews P (selectedBy filter reviews)).length = 0 := by
      intro h0
      exact hne (List.length_eq_zero.mp h0)
    simp only [displayReviews, hload, hfilter, hd, hlen, if_false, hhtml]

/-- C10: for every stored collection and every filter `'all'` or `'1'` to `'5'`, the
count `displayReviews` shows is the length of the whole stored collection, whatever
the filter selects and although the sort reorders the array in place for `'all'`. -/
theorem displayReviews_count_unfiltered (P : Platform) (app : App)
    (reviews : List Review) (filter : Option Int)
    (hload : loadReviews app.storage = .ok reviews)
    (hfilter : app.currentFilter = filterText filter)
    (hrange : ∀ k, filter = some k → 1 ≤ k ∧ k ≤ 5) :
    (displayReviews P app).app.dom.reviewCount = '(' :: natToString reviews.length ++ [')'] := by
  have hd := displayedReviews_filterText P filter reviews hrange
  have hlen : (if filterText filter ≠ "all".toList then reviews
      else sortReviews P (selectedBy filter reviews)).length = reviews.length := by
    split
    · rfl
    · rename_i hall
      cases filter with
      | none => exact (sortReviews_perm P reviews).length_eq
      | some k =>
        exfalso
        obtain ⟨h1, h5⟩ := hrange k rfl
        apply hall
        simp only [filterText]
        interval_cases k <;> decide
  simp only [displayReviews, hload, hfilter, hd]
  split
  · simp only [hlen]
  · split <;> simp only [hlen]

/-! ### Escaping -/

theorem escapeChar_safe (c x : Char) (hx : x ∈ escapeChar c) :
    x ≠ '<' ∧ x ≠ '>' ∧ x ≠ '"' ∧ x ≠ '\'' := by
  unfold escapeChar at hx
  split at hx
  · revert x; decide
  · split at hx
    · revert x; decide
    · split at hx
      · revert x; decide
      · split at hx
        · revert x; decide
        · split at hx
          · revert x; decide
          · rw [List.mem_singleton] at hx
            subst hx
            simp_all

theorem escapeHtml_safe : ∀ (text : JsString) (x : Char), x ∈ escapeHtml text →
    x ≠ '<' ∧ x ≠ '>' ∧ x ≠ '"' ∧ x ≠ '\''
  | [], x, hx => by simp [escapeHtml] at hx
  | c :: t, x, hx => by
    unfold escapeHtml at hx
    rcases List.mem_append.mp hx with h | h
    · exact escapeChar_safe c x h
    · exact escapeHtml_safe t x h

theorem count_escapeHtml (x : Char) (hx : x = '<' ∨ x = '>') (text : JsString) :
    (escapeHtml text).count x = 0 := by
  rw [List.count_eq_zero]
  intro hmem
  have := escapeHtml_safe text x hmem
  rcases hx with rfl | rfl
  · exact this.1 rfl
  · exact this.2.1 rfl

theorem count_starsText (x : Char) (hx : x = '<' ∨ x = '>') (rating : Int) (stars : JsString)
    (h : starsText rating = some stars) : stars.count x = 0 := by
  unfold starsText at h
  split at h
  · cases h
    rw [List.count_eq_zero]
    intro hmem
    rcases List.mem_append.mp hmem with h1 | h1
    · have := List.eq_of_mem_replicate h1
      rcases hx with rfl | rfl <;> exact absurd this (by decide)
    · have := List.eq_of_mem_replicate h1
      rcases hx with rfl | rfl <;> exact absurd this (by decide)
  · cases h

theorem count_renderCard (P : Platform) (review : Review) (html : JsString)
    (h : renderCard P review = some html) (x : Char) (hx : x = '<' ∨ x = '>') :
    html.count x = 18 + (P.toLocaleDateString review.date).count x := by
  unfold renderCard at h
  split at h
  · rename_i stars hstars
    cases h
    have h1 := count_escapeHtml x hx review.name
    have h2 := count_escapeHtml x hx review.email
    have h3 := count_escapeHtml x hx review.comment
    have h4 := count_starsText x hx review.rating stars hstars
    simp only [cardTemplate, List.count_append, h1, h2, h3, h4]
    rcases hx with rfl | rfl
    · have c0 : cardOpen.count '<' = 4 := by decide
      have c1 : cardAfterName.count '<' = 2 := by decide
      have c2 : cardAfterEmail.count '<' = 4 := by decide
      have c3 : cardAfterStars.count '<' = 2 := by decide
      have c4 : cardAfterDate.count '<' = 4 := by decide
      have c5 : cardClose.count '<' = 2 := by decide
      omega
    · have c0 : cardOpen.count '>' = 4 := by decide
      have c1 : cardAfterName.count '>' = 2 := by decide
      have c2 : cardAfterEmail.count '>' = 4 := by decide
      have c3 : cardAfterStars.count '>' = 2 := by decide
      have c4 : cardAfterDate.count '>' = 4 := by decide
      have c5 : cardClose.count '>' = 2 := by decide
      omega
  · cases h

theorem count_renderCards (P : Platform) (x : Char) (hx : x = '<' ∨ x = '>') :
    ∀ (reviews : List Review) (html : JsString), renderCards P reviews = some html →
      html.count x = (reviews.map (fun r => 18 + (P.toLocaleDateString r.date).count x)).sum
  | [], html, h => by
    simp only [renderCards, Option.some.injEq] at h
    subst h
    rfl
  | r :: t, html, h => by
    unfold renderCards at h
    split at h
    · rename_i card cards hcard hcards
      cases h
      rw [List.count_append, count_renderCard P r card hcard x hx,
        count_renderCards P x hx t cards hcards]
      simp
    · cases h

theorem renderCard_of_renderCards (P : Platform) :
    ∀ (reviews : List Review) (html : JsString), renderCards P reviews = some html →
      ∀ r ∈ reviews, ∃ stars, renderCard P r = some (cardTemplate (escapeHtml r.name)
        (escapeHtml r.email) stars (P.toLocaleDateString r.date) (escapeHtml r.comment))
  | [], _, _, r, hr => by cases hr
  | a :: t, html, h, r, hr => by
    unfold renderCards at h
    split at h
    · rename_i card cards hcard hcards
      rcases List.mem_cons.mp hr with rfl | hr
      · unfold renderCard at hcard ⊢
        split at hcard
        · rename_i stars hstars
          exact ⟨stars, rfl⟩
        · cases hcard
      · exact renderCard_of_renderCards P t cards hcards r hr
    · cases h

/-- C7: `escapeHtml` returns no `<`, `>`, `"` or `'`; every card `displayReviews`
builds is the fixed template around the escaped name, e-mail and comment, the star
glyphs and the formatted date; so the markup of a list holds, per card, the 18 `<`
and 18 `>` of the template and those of the formatted date, none from a review's
text, whatever that text contains. -/
theorem escapeHtml_keeps_markup_out (P : Platform) (reviews : List Review) (html : JsString)
    (hrender : renderCards P reviews = some html) :
    (∀ (text : JsString) (x : Char), x ∈ escapeHtml text →
        x ≠ '<' ∧ x ≠ '>' ∧ x ≠ '"' ∧ x ≠ '\'')
      ∧ (∀ r ∈ reviews, ∃ stars, renderCard P r = some (cardTemplate (escapeHtml r.name)
          (escapeHtml r.email) stars (P.toLocaleDateString r.date) (escapeHtml r.comment)))
      ∧ html.count '<' = (reviews.map (fun r => 18 + (P.toLocaleDateString r.date).count '<')).sum
      ∧ html.count '>' = (reviews.map (fun r => 18 + (P.toLocaleDateString r.date).count '>')).sum :=
  ⟨escapeHtml_safe, renderCard_of_renderCards P reviews html hrender,
    count_renderCards P '<' (Or.inl rfl) reviews html hrender,
    count_renderCards P '>' (Or.inr rfl) reviews html hrender⟩

/-! ### Statistics: counts -/

theorem incrementCount_counts (k : Int) (c5 c4 c3 c2 c1 : Nat) :
    incrementCount k [(5, c5), (4, c4), (3, c3), (2, c2), (1, c1)]
      = [(5, c5 + if k = 5 then 1 else 0), (4, c4 + if k = 4 then 1 else 0),
         (3, c3 + if k = 3 then 1 else 0), (2, c2 + if k = 2 then 1 else 0),
         (1, c1 + if k = 1 then 1 else 0)] := by
  have e : ∀ j : Int, (j = k) = (k = j) := fun j => propext ⟨Eq.symm, Eq.symm⟩
  simp only [incrementCount, List.map_cons, List.map_nil, e]
  by_cases h5 : k = 5
  · subst h5; simp
  · by_cases h4 : k = 4
    · subst h4; simp
    · by_cases h3 : k = 3
      · subst h3; simp
      · by_cases h2 : k = 2
        · subst h2; simp
        · by_cases h1 : k = 1
          · subst h1; simp
          · simp [h5, h4, h3, h2, h1]

theorem ratingCounts_fold (reviews : List Review) : ∀ c5 c4 c3 c2 c1 : Nat,
    reviews.foldl (fun counts review => incrementCount review.rating counts)
        [(5, c5), (4, c4), (3, c3), (2, c2), (1, c1)]
      = [(5, c5 + reviews.countP (fun r => decide (r.rating = 5))),
         (4, c4 + reviews.countP (fun r => decide (r.rating = 4))),
         (3, c3 + reviews.countP (fun r => decide (r.rating = 3))),
         (2, c2 + reviews.countP (fun r => decide (r.rating = 2))),
         (1, c1 + reviews.countP (fun r => decide (r.rating = 1)))] := by
  induction reviews with
  | nil => intros; simp
  | cons r t ih =>
    intro c5 c4 c3 c2 c1
    rw [List.foldl_cons, incrementCount_counts, ih]
    simp only [List.countP_cons, decide_eq_true_eq, Nat.add_assoc]
    have e : ∀ (c : Nat) (q : Prop) [Decidable q] (n : Nat),
        c + ((if q then 1 else 0) + n) = c + (n + if q then 1 else 0) := by
      intro c q _ n; split <;> omega
    simp only [e]

theorem countOf_ratingCounts (reviews : List Review) (k : Int) (h1 : 1 ≤ k) (h5 : k ≤ 5) :
    countOf (ratingCounts reviews) k = reviews.countP (fun r => decide (r.rating = k)) := by
  unfold ratingCounts initialCounts
  rw [ratingCounts_fold]
  interval_cases k <;> simp [countOf, List.find?]

theorem countP_ratings_sum (reviews : List Review)
    (hrange : ∀ r ∈ reviews, 1 ≤ r.rating ∧ r.rating ≤ 5) :
    reviews.countP (fun r => decide (r.rating = 1)) + reviews.countP (fun r => decide (r.rating = 2))
      + reviews.countP (fun r => decide (r.rating = 3)) + reviews.countP (fun r => decide (r.rating = 4))
      + reviews.countP (fun r => decide (r.rating = 5)) = reviews.length := by
  induction reviews with
  | nil => simp
  | cons r t ih =>
    have ht := ih (fun x hx => hrange x (List.mem_cons_of_mem _ hx))
    obtain ⟨h1, h5⟩ := hrange r (List.mem_cons_self _ _)
    simp only [List.countP_cons, List.length_cons]
    have : r.rating = 1 ∨ r.rating = 2 ∨ r.rating = 3 ∨ r.rating = 4 ∨ r.rating = 5 := by omega
    rcases this with e | e | e | e | e <;> simp [e] <;> omega

/-- C5: for every stored collection with ratings from 1 to 5, `updateStatistics` shows
for each `k` from 1 to 5 the number of reviews with rating `k`, shows the length of
the collection as the total, and the five counts add up to that total; in particular
every count and the total are 0 for the empty collection. -/
theorem updateStatistics_counts (app : App) (reviews : List Review)
    (hload : loadReviews app.storage = .ok reviews)
    (hrange : ∀ r ∈ reviews, 1 ≤ r.rating ∧ r.rating ≤ 5) :
    (updateStatistics app).completion = .normal
      ∧ (∀ k : Int, 1 ≤ k → k ≤ 5 → (updateStatistics app).app.dom.countText k
          = natToString (reviews.countP (fun r => decide (r.rating = k))))
      ∧ (updateStatistics app).app.dom.totalReviews = natToString reviews.length
      ∧ reviews.countP (fun r => decide (r.rating = 1))
          + reviews.countP (fun r => decide (r.rating = 2))
          + reviews.countP (fun r => decide (r.rating = 3))
          + reviews.countP (fun r => decide (r.rating = 4))
          + reviews.countP (fun r => decide (r.rating = 5)) = reviews.length := by
  refine ⟨?_, ?_, ?_, countP_ratings_sum reviews hrange⟩
  · simp only [updateStatistics, hload]
    split <;> rfl
  · intro k h1 h5
    simp only [updateStatistics, hload]
    split
    · rename_i h0
      have hnil : reviews = [] := List.length_eq_zero.mp h0
      subst hnil
      interval_cases k <;> rfl
    · have c := countOf_ratingCounts reviews
      interval_cases k <;>
        simp [List.foldl, Dom.setCount, c]
  · simp only [updateStatistics, hload]
    split
    · rename_i h0
      rw [h0]
      rfl
    · simp [List.foldl, Dom.setCount]

/-! ### The submit handler without a rating -/

/-- C9: when no rating is selected (the draft rating input is empty), submitting
leaves the store, the draft rating, the text fields, the stars and every derived
view as they were; the handler only shows the warning toast. -/
theorem submitForm_without_rating (P : Platform) (now : Int) (isoNow : JsString) (app : App)
    (hempty : app.dom.ratingInput = []) :
    submitForm P now isoNow app
        = ⟨showToast "Please select a rating".toList "error".toList app, .normal⟩
      ∧ (submitForm P now isoNow app).app.storage = app.storage
      ∧ (submitForm P now isoNow app).app.currentFilter = app.currentFilter
      ∧ (submitForm P now isoNow app).app.dom
          = { app.dom with toasts := app.dom.toasts
                ++ [("Please select a rating".toList, "error".toList)] } := by
  have h : submitForm P now isoNow app
      = ⟨showToast "Please select a rating".toList "error".toList app, .normal⟩ := by
    simp only [submitForm, hempty, if_true]
  rw [h]
  exact ⟨rfl, rfl, rfl, rfl⟩

/-! ### JSON: numbers -/

theorem digitVal_digitChar (d : Nat) (h : d < 10) : digitVal (digitChar d) = some d := by
  interval_cases d <;> rfl

theorem digitChar_zero (d : Nat) (h : d < 10) (h0 : digitChar d = '0') : d = 0 := by
  interval_cases d <;> first | rfl | (exact absurd h0 (by decide))

theorem digit_facts (c : Char) (h : (digitVal c).isSome = true) :
    c ≠ '[' ∧ c ≠ '\x7b' ∧ c ≠ '"' ∧ c ≠ '-' ∧ isJsonWs c = false := by
  unfold digitVal at h
  repeat' split at h
  all_goals first
    | (rename_i e; subst e; decide)
    | (exact absurd h (by decide))

theorem readDigits_not_digit (acc : Nat) (rest : JsString)
    (h : startsWithDigit rest = false) : readDigits acc rest = (acc, rest) := by
  cases rest with
  | nil => rfl
  | cons c t =>
    simp only [startsWithDigit] at h
    unfold readDigits
    cases hd : digitVal c with
    | none => rfl
    | some v => rw [hd] at h; cases h

theorem readDigits_natDigits : ∀ (fuel n : Nat), n < fuel → ∀ (acc : Nat) (rest : JsString),
    readDigits acc (natDigits fuel n ++ rest)
      = readDigits (acc * 10 ^ (natDigits fuel n).length + n) rest
  | 0, n, h, _, _ => by omega
  | fuel + 1, n, h, acc, rest => by
    unfold natDigits
    split
    · rename_i hn
      simp only [List.singleton_append, List.length_singleton, pow_one]
      rw [readDigits, digitVal_digitChar n hn]
    · rename_i hn
      have hlt : n / 10 < fuel := by omega
      rw [List.append_assoc, readDigits_natDigits fuel (n / 10) hlt]
      simp only [List.singleton_append, List.length_append, List.length_singleton]
      rw [readDigits, digitVal_digitChar (n % 10) (Nat.mod_lt _ (by omega))]
      have e : (acc * 10 ^ (natDigits fuel (n / 10)).length + n / 10) * 10 + n % 10
          = acc * 10 ^ ((natDigits fuel (n / 10)).length + 1) + n := by
        rw [pow_succ, ← Nat.mul_assoc]
        generalize acc * 10 ^ (natDigits fuel (n / 10)).length = x
        omega
      simp only [e]

theorem natDigits_head : ∀ (fuel n : Nat), n < fuel →
    ∃ c t, natDigits fuel n = c :: t ∧ (digitVal c).isSome = true ∧ (c = '0' → t = [] ∧ n = 0)
  | 0, n, h => by omega
  | fuel + 1, n, h => by
    unfold natDigits
    split
    · rename_i hn
      refine ⟨digitChar n, [], rfl, ?_, ?_⟩
      · rw [digitVal_digitChar n hn]; rfl
      · intro h0
        exact ⟨rfl, digitChar_zero n hn h0⟩
    · rename_i hn
      have hlt : n / 10 < fuel := by omega
      obtain ⟨c, t, hct, hc, hz⟩ := natDigits_head fuel (n / 10) hlt
      refine ⟨c, t ++ [digitChar (n % 10)], by rw [hct]; rfl, hc, ?_⟩
      intro h0
      have := (hz h0).2
      omega

theorem parseDigits_natToString (neg : Bool) (n : Nat) (rest : JsString)
    (hn : n < safeBound) (hneg : ¬ (neg = true ∧ n = 0))
    (hd : startsWithDigit rest = false) (hf : startsFraction rest = false) :
    parseDigits neg (natToString n ++ rest)
      = .ok (.num (if neg then -(n : Int) else (n : Int))) rest := by
  have hread := readDigits_natDigits (n + 1) n (Nat.lt_succ_self n) 0 rest
  obtain ⟨c, t, hct, hc, hz⟩ := natDigits_head (n + 1) n (Nat.lt_succ_self n)
  unfold natToString
  rw [zero_mul, zero_add, readDigits_not_digit n rest hd] at hread
  rw [hct] at hread ⊢
  simp only [List.cons_append] at hread ⊢
  unfold parseDigits
  have hnone : (digitVal c).isNone = false := by
    cases h : digitVal c with
    | none => rw [h] at hc; cases hc
    | some v => rfl
  have hlead : (decide (c = '0') && startsWithDigit (t ++ rest)) = false := by
    by_cases h0 : c = '0'
    · rw [(hz h0).1]; simp [hd]
    · simp [h0]
  have hbound : (decide (safeBound ≤ n) || (neg && decide (n = 0))) = false := by
    have h1 : ¬ safeBound ≤ n := by omega
    cases neg with
    | false => simp [h1]
    | true =>
      have h2 : ¬ n = 0 := fun e => hneg ⟨rfl, e⟩
      simp [h1, h2]
  simp only [hnone, hlead, hread, hf, hbound, Bool.false_eq_true, if_false]

theorem natToString_head (n : Nat) :
    ∃ c t, natToString n = c :: t ∧ (digitVal c).isSome = true := by
  obtain ⟨c, t, hct, hc, _⟩ := natDigits_head (n + 1) n (Nat.lt_succ_self n)
  exact ⟨c, t, hct, hc⟩

theorem parseNumber_intToString (i : Int) (rest : JsString) (hi : i.natAbs < safeBound)
    (hd : startsWithDigit rest = false) (hf : startsFraction rest = false) :
    parseNumber (intToString i ++ rest) = .ok (.num i) rest := by
  unfold intToString
  split
  · rename_i hneg
    have h := parseDigits_natToString true i.natAbs rest hi (by omega) hd hf
    simp only [List.cons_append, parseNumber, h, if_true]
    congr 2
    omega
  · rename_i hpos
    obtain ⟨c, t, hct, hc⟩ := natToString_head i.natAbs
    have h := parseDigits_natToString false i.natAbs rest hi (by simp) hd hf
    have hminus : c ≠ '-' := (digit_facts c hc).2.2.2.1
    rw [hct] at h ⊢
    simp only [List.cons_append] at h ⊢
    have : parseNumber (c :: (t ++ rest)) = parseDigits false (c :: (t ++ rest)) := by
      unfold parseNumber
      split
      · rename_i heq
        exact absurd (List.cons.inj heq).1 hminus
      · rfl
    rw [this, h]
    simp only [Bool.false_eq_true, if_false]
    congr 2
    omega

theorem parseValue_intToString (fuel : Nat) (i : Int) (rest : JsString)
    (hi : i.natAbs < safeBound)
    (hd : startsWithDigit rest = false) (hf : startsFraction rest = false) :
    parseValue (fuel + 1) (intToString i ++ rest) = .ok (.num i) rest := by
  have hnum := parseNumber_intToString i rest hi hd hf
  have hhead : ∃ c t, intToString i = c :: t ∧ (c = '-' ∨ (digitVal c).isSome = true) := by
    unfold intToString
    split
    · exact ⟨'-', _, rfl, Or.inl rfl⟩
    · obtain ⟨c, t, hct, hc⟩ := natToString_head i.natAbs
      exact ⟨c, t, hct, Or.inr hc⟩
  obtain ⟨c, t, hct, hc⟩ := hhead
  rw [hct] at hnum ⊢
  simp only [List.cons_append] at hnum ⊢
  have hfacts : c ≠ '[' ∧ c ≠ '\x7b' ∧ c ≠ '"' ∧ isJsonWs c = false := by
    rcases hc with rfl | hc
    · decide
    · have := digit_facts c hc
      exact ⟨this.1, this.2.1, this.2.2.1, this.2.2.2.2⟩
  have hdisp : (decide (c = '-') || (digitVal c).isSome) = true := by
    rcases hc with rfl | hc
    · rfl
    · simp [hc]
  unfold parseValue
  simp only [skipWs, hfacts.2.2.2, Bool.false_eq_true, if_false, hfacts.1, hfacts.2.1,
    hfacts.2.2.1, hdisp, if_true, hnum]

/-! ### JSON: strings -/

theorem hexVal_hexChar (d : Nat) (h : d < 16) : hexVal (hexChar d) = some d := by
  interval_cases d <;> rfl

theorem char_eq_ofNat (c : Char) (n : Nat) (h : c.val.toNat = n) : c = Char.ofNat n := by
  rw [← h]
  exact (Char.ofNat_toNat c).symm

theorem parseStringTail_escape (e x : Char) (s tail rest : JsString)
    (hu : e ≠ 'u') (hx : unescape e = some x) (ih : parseStringTail tail = .ok s rest) :
    parseStringTail ('\\' :: e :: tail) = .ok (x :: s) rest := by
  rw [parseStringTail.eq_def]
  simp only [show ('\\' : Char) ≠ '"' by decide, if_false, if_true, hu, hx, ih, Parsed.map]

theorem parseStringTail_quoteBody : ∀ (s rest : JsString),
    parseStringTail (quoteBody s ++ '"' :: rest) = .ok s rest
  | [], rest => by
    rw [parseStringTail.eq_def]
    simp [quoteBody]
  | c :: t, rest => by
    have ih := parseStringTail_quoteBody t rest
    unfold quoteBody quoteChar
    split
    · rename_i h; subst h
      exact parseStringTail_escape '"' '"' t _ rest (by decide) rfl ih
    · split
      · rename_i h; subst h
        exact parseStringTail_escape '\\' '\\' t _ rest (by decide) rfl ih
      · split
        · rename_i h
          rw [char_eq_ofNat c 8 h]
          exact parseStringTail_escape 'b' _ t _ rest (by decide) rfl ih
        · split
          · rename_i h
            rw [char_eq_ofNat c 9 h]
            exact parseStringTail_escape 't' _ t _ rest (by decide) rfl ih
          · split
            · rename_i h
              rw [char_eq_ofNat c 10 h]
              exact parseStringTail_escape 'n' _ t _ rest (by decide) rfl ih
            · split
              · rename_i h
                rw [char_eq_ofNat c 12 h]
                exact parseStringTail_escape 'f' _ t _ rest (by decide) rfl ih
              · split
                · rename_i h
                  rw [char_eq_ofNat c 13 h]
                  exact parseStringTail_escape 'r' _ t _ rest (by decide) rfl ih
                · split
                  · rename_i hq hb _ _ _ _ _ hlt
                    have h1 : hexVal (hexChar (c.val.toNat / 16)) = some (c.val.toNat / 16) :=
                      hexVal_hexChar _ (by omega)
                    have h2 : hexVal (hexChar (c.val.toNat % 16)) = some (c.val.toNat % 16) :=
                      hexVal_hexChar _ (Nat.mod_lt _ (by omega))
                    have h0 : hexVal '0' = some 0 := rfl
                    have hhex : hex4 '0' '0' (hexChar (c.val.toNat / 16))
                        (hexChar (c.val.toNat % 16)) = some c.val.toNat := by
                      simp only [hex4, h0, h1, h2]
                      congr 1
                      omega
                    have hsur : isSurrogate c.val.toNat = false := by
                      simp only [isSurrogate, Bool.and_eq_false_imp, decide_eq_true_eq]
                      intro h; omega
                    have hc : Char.ofNat c.val.toNat = c := Char.ofNat_toNat c
                    simp only [List.cons_append, List.nil_append]
                    rw [parseStringTail.eq_def]
                    simp only [show ('\\' : Char) ≠ '"' by decide, if_false, if_true, hhex, hsur,
                      Bool.false_eq_true, ih, Parsed.map, hc]
                  · rename_i hq hb _ _ _ _ _ hlt
                    simp only [List.cons_append, List.nil_append]
                    rw [parseStringTail.eq_def]
                    simp only [hq, hb, hlt, if_false, ih, Parsed.map]

theorem parseValue_quoteJSONString (fuel : Nat) (s rest : JsString) :
    parseValue (fuel + 1) (quoteJSONString s ++ rest) = .ok (.str s) rest := by
  unfold quoteJSONString
  simp only [List.cons_append, List.append_assoc, List.nil_append]
  unfold parseValue
  simp only [skipWs, show isJsonWs '"' = false by decide, Bool.false_eq_true, if_false,
    show ('"' : Char) ≠ '[' by decide, show ('"' : Char) ≠ '\x7b' by decide, if_true,
    parseStringTail_quoteBody, Parsed.map]

/-! ### JSON: review records -/

theorem parseMembers_cons (fuel : Nat) (k : JsString) (v : Json) (vtext rest : JsString)
    (hv : parseValue fuel (vtext ++ ',' :: rest) = .ok v (',' :: rest)) :
    parseMembers (fuel + 1) (quoteJSONString k ++ ':' :: (vtext ++ ',' :: rest))
      = (parseMembers fuel rest).map (fun kvs => (k, v) :: kvs) := by
  unfold quoteJSONString
  simp only [List.cons_append, List.append_assoc, List.nil_append]
  rw [parseMembers]
  simp only [skipWs, show isJsonWs '"' = false by decide, show isJsonWs ':' = false by decide,
    show isJsonWs ',' = false by decide, Bool.false_eq_true, if_false,
    parseStringTail_quoteBody, hv]

theorem parseMembers_last (fuel : Nat) (k : JsString) (v : Json) (vtext rest : JsString)
    (hv : parseValue fuel (vtext ++ '\x7d' :: rest) = .ok v ('\x7d' :: rest)) :
    parseMembers (fuel + 1) (quoteJSONString k ++ ':' :: (vtext ++ '\x7d' :: rest))
      = .ok [(k, v)] rest := by
  unfold quoteJSONString
  simp only [List.cons_append, List.append_assoc, List.nil_append]
  rw [parseMembers]
  simp only [skipWs, show isJsonWs '"' = false by decide, show isJsonWs ':' = false by decide,
    show isJsonWs '\x7d' = false by decide, Bool.false_eq_true, if_false,
    parseStringTail_quoteBody, hv]

theorem stringify_review (r : Review) (rest : JsString) :
    stringifyValue r.toJson ++ rest
      = '\x7b' :: (quoteJSONString "id".toList ++ ':' :: (intToString r.id ++ ',' ::
          (quoteJSONString "rating".toList ++ ':' :: (intToString r.rating ++ ',' ::
          (quoteJSONString "name".toList ++ ':' :: (quoteJSONString r.name ++ ',' ::
          (quoteJSONString "email".toList ++ ':' :: (quoteJSONString r.email ++ ',' ::
          (quoteJSONString "comment".toList ++ ':' :: (quoteJSONString r.comment ++ ',' ::
          (quoteJSONString "date".toList ++ ':' :: (quoteJSONString r.date ++ '\x7d' :: rest))))))))))))
      := by
  simp only [Review.toJson, stringifyValue, stringifyMembers, List.cons_append, List.append_assoc,
    List.nil_append]

theorem parseValue_object (fuel : Nat) (kvs : List (JsString × Json)) (text tail rest : JsString)
    (htext : text = '"' :: tail) (hmem : parseMembers fuel text = .ok kvs rest)
    (hkeys : keysModelled kvs = true) :
    parseValue (fuel + 1) ('\x7b' :: text) = .ok (.obj kvs) rest := by
  subst htext
  rw [parseValue]
  simp only [skipWs, show isJsonWs '\x7b' = false by decide, show isJsonWs '"' = false by decide,
    Bool.false_eq_true, if_false, show ('\x7b' : Char) ≠ '[' by decide, if_true, hmem, hkeys]
  split
  · rename_i h
    exact absurd (List.cons.inj h).1 (by decide)
  · rfl

theorem parseValue_review (fuel : Nat) (r : Review) (rest : JsString) (hr : r.Safe) :
    parseValue (fuel + 8) (stringifyValue r.toJson ++ rest) = .ok r.toJson rest := by
  rw [stringify_review]
  refine parseValue_object (fuel + 7) _ _ _ rest rfl ?_ rfl
  rw [parseMembers_cons (fuel + 6) _ (.num r.id) _ _
      (parseValue_intToString (fuel + 5) r.id _ hr.1 rfl rfl),
    parseMembers_cons (fuel + 5) _ (.num r.rating) _ _
      (parseValue_intToString (fuel + 4) r.rating _ hr.2 rfl rfl),
    parseMembers_cons (fuel + 4) _ (.str r.name) _ _
      (parseValue_quoteJSONString (fuel + 3) r.name _),
    parseMembers_cons (fuel + 3) _ (.str r.email) _ _
      (parseValue_quoteJSONString (fuel + 2) r.email _),
    parseMembers_cons (fuel + 2) _ (.str r.comment) _ _
      (parseValue_quoteJSONString (fuel + 1) r.comment _),
    parseMembers_last (fuel + 1) _ (.str r.date) _ _
      (parseValue_quoteJSONString fuel r.date _)]
  rfl


/-! ### JSON: arrays of review records -/

theorem stringifyElements_head (r : Review) (rs : List Review) (rest : JsString) :
    ∃ tail, stringifyElements ((r :: rs).map Review.toJson) ++ rest = '\x7b' :: tail := by
  cases rs with
  | nil => exact ⟨_, stringify_review r rest⟩
  | cons y t =>
    simp only [List.map_cons, stringifyElements, List.append_assoc]
    exact ⟨_, stringify_review r _⟩

theorem parseElements_reviews : ∀ (rs : List Review) (r : Review) (fuel : Nat) (rest : JsString),
    (∀ x ∈ r :: rs, x.Safe) →
    parseElements (fuel + rs.length + 9)
        (stringifyElements ((r :: rs).map Review.toJson) ++ ']' :: rest)
      = .ok ((r :: rs).map Review.toJson) rest
  | [], r, fuel, rest, hs => by
    have hv := parseValue_review fuel r (']' :: rest) (hs r (List.mem_cons_self _ _))
    simp only [List.map_cons, List.map_nil, stringifyElements, List.length_nil, Nat.add_zero]
    rw [parseElements, hv]
    simp only [skipWs, show isJsonWs ']' = false by decide, Bool.false_eq_true, if_false]
  | y :: t, r, fuel, rest, hs => by
    have ih := parseElements_reviews t y fuel rest
      (fun x hx => hs x (List.mem_cons_of_mem _ hx))
    have hv := parseValue_review (fuel + t.length + 1) r
      (',' :: (stringifyElements ((y :: t).map Review.toJson) ++ ']' :: rest))
      (hs r (List.mem_cons_self _ _))
    simp only [List.map_cons, stringifyElements, List.length_cons, List.append_assoc,
      List.cons_append] at ih hv ⊢
    have hfuel : fuel + (t.length + 1) + 9 = (fuel + t.length + 9) + 1 := by omega
    have hfuel2 : fuel + t.length + 1 + 8 = fuel + t.length + 9 := by omega
    rw [hfuel2] at hv
    rw [hfuel, parseElements, hv]
    simp only [skipWs, show isJsonWs ',' = false by decide, Bool.false_eq_true, if_false, ih,
      Parsed.map]

theorem parseValue_array (fuel : Nat) (vs : List Json) (text tail rest : JsString)
    (htext : text = '\x7b' :: tail) (helems : parseElements fuel text = .ok vs rest) :
    parseValue (fuel + 1) ('[' :: text) = .ok (.arr vs) rest := by
  subst htext
  rw [parseValue]
  simp only [skipWs, show isJsonWs '[' = false by decide, show isJsonWs '\x7b' = false by decide,
    Bool.false_eq_true, if_false, if_true, helems, Parsed.map]
  split
  · rename_i h
    exact absurd (List.cons.inj h).1 (by decide)
  · rfl

theorem parseValue_reviews (fuel : Nat) (r : Review) (rs : List Review) (rest : JsString)
    (hs : ∀ x ∈ r :: rs, x.Safe) :
    parseValue (fuel + rs.length + 10) (stringifyValue (reviewsJson (r :: rs)) ++ rest)
      = .ok (reviewsJson (r :: rs)) rest := by
  obtain ⟨tail, htail⟩ := stringifyElements_head r rs (']' :: rest)
  have he := parseElements_reviews rs r fuel rest hs
  simp only [reviewsJson, stringifyValue, List.cons_append, List.append_assoc, List.nil_append]
  exact parseValue_array (fuel + rs.length + 9) _ _ tail rest htail he

theorem length_stringify_review (r : Review) : 7 ≤ (stringifyValue r.toJson).length := by
  have h := congrArg List.length (stringify_review r [])
  simp only [List.append_nil, List.length_cons, List.length_append] at h
  omega

theorem length_stringifyElements : ∀ (rs : List Review) (r : Review),
    rs.length + 7 ≤ (stringifyElements ((r :: rs).map Review.toJson)).length
  | [], r => by
    simp only [List.map_cons, List.map_nil, stringifyElements, List.length_nil]
    have := length_stringify_review r
    omega
  | y :: t, r => by
    have ih := length_stringifyElements t y
    have := length_stringify_review r
    simp only [List.map_cons, stringifyElements, List.length_append, List.length_cons] at ih ⊢
    omega

theorem parse_stringify_reviews (rs : List Review) (hs : ∀ x ∈ rs, x.Safe) :
    JSON.parse (JSON.stringify (reviewsJson rs)) = .ok (reviewsJson rs) := by
  cases rs with
  | nil => rfl
  | cons r t =>
    have hlen : t.length + 9 ≤ (stringifyValue (reviewsJson (r :: t))).length := by
      have := length_stringifyElements t r
      simp only [reviewsJson, stringifyValue, List.length_cons, List.length_append,
        List.length_nil]
      omega
    obtain ⟨f, hf⟩ : ∃ f, (stringifyValue (reviewsJson (r :: t))).length + 1
        = f + t.length + 10 := ⟨(stringifyValue (reviewsJson (r :: t))).length - t.length - 9,
          by omega⟩
    have hv := parseValue_reviews f r t [] hs
    rw [List.append_nil] at hv
    unfold JSON.parse JSON.stringify
    rw [hf, hv]
    rfl

theorem asReview_toJson (r : Review) (hr : r.Safe) : asReview r.toJson = some r := by
  simp only [Review.toJson, asReview, true_and, hr.1, hr.2, and_self, if_true]

theorem asReviews_toJson : ∀ (rs : List Review), (∀ x ∈ rs, x.Safe) →
    asReviews (rs.map Review.toJson) = some rs
  | [], _ => rfl
  | r :: t, hs => by
    simp only [List.map_cons, asReviews, asReview_toJson r (hs r (List.mem_cons_self _ _)),
      asReviews_toJson t (fun x hx => hs x (List.mem_cons_of_mem _ hx))]

theorem stringify_ne_nil (rs : List Review) : JSON.stringify (reviewsJson rs) ≠ [] := by
  simp [JSON.stringify, reviewsJson, stringifyValue]

theorem getReviews_setItem (ls : LocalStorage) (rs : List Review) (hs : ∀ x ∈ rs, x.Safe) :
    getReviews (ls.setItem STORAGE_KEY (JSON.stringify (reviewsJson rs)))
      = .ok (reviewsJson rs) := by
  simp only [getReviews, LocalStorage.getItem, LocalStorage.setItem, if_true,
    stringify_ne_nil rs, if_false, parse_stringify_reviews rs hs]

theorem loadReviews_setItem (ls : LocalStorage) (rs : List Review) (hs : ∀ x ∈ rs, x.Safe) :
    loadReviews (ls.setItem STORAGE_KEY (JSON.stringify (reviewsJson rs))) = .ok rs := by
  unfold loadReviews
  rw [getReviews_setItem ls rs hs]
  simp only [reviewsJson, asReviews_toJson rs hs]

/-! ### The store -/

theorem asReview_eq (x : Json) (r : Review) (h : asReview x = some r) :
    x = r.toJson ∧ r.Safe := by
  unfold asReview at h
  split at h
  · split at h
    · rename_i hk
      obtain ⟨h1, h2, h3, h4, h5, h6, h7, h8⟩ := hk
      cases h
      subst h1 h2 h3 h4 h5 h6
      exact ⟨rfl, h7, h8⟩
    · cases h
  · cases h

theorem asReviews_eq : ∀ (xs : List Json) (rs : List Review), asReviews xs = some rs →
    xs = rs.map Review.toJson ∧ ∀ r ∈ rs, r.Safe
  | [], rs, h => by
    simp only [asReviews, Option.some.injEq] at h
    subst h
    exact ⟨rfl, fun r hr => by cases hr⟩
  | x :: t, rs, h => by
    unfold asReviews at h
    split at h
    · rename_i r rs1 hx ht
      cases h
      obtain ⟨e1, s1⟩ := asReview_eq x r hx
      obtain ⟨e2, s2⟩ := asReviews_eq t rs1 ht
      refine ⟨by rw [e1, e2]; rfl, ?_⟩
      intro y hy
      rcases List.mem_cons.mp hy with rfl | hy
      · exact s1
      · exact s2 y hy
    · cases h

theorem loadReviews_eq (ls : LocalStorage) (rs : List Review) (h : loadReviews ls = .ok rs) :
    getReviews ls = .ok (reviewsJson rs) ∧ ∀ r ∈ rs, r.Safe := by
  unfold loadReviews at h
  split at h
  · rename_i xs hg
    split at h
    · rename_i rs1 ha
      cases h
      obtain ⟨e, s⟩ := asReviews_eq xs rs ha
      exact ⟨by rw [hg, e]; rfl, s⟩
    · cases h
  all_goals cases h

theorem getReviews_empty (ls : LocalStorage)
    (h : ls.getItem STORAGE_KEY = none ∨ ls.getItem STORAGE_KEY = some []) :
    getReviews ls = .ok (.arr []) := by
  unfold getReviews
  rcases h with h | h <;> simp [h]

theorem saveReview_review (ls : LocalStorage) (stored : List Review) (r : Review)
    (hload : getReviews ls = .ok (reviewsJson stored)) :
    saveReview r.toJson ls
      = .ok (ls.setItem STORAGE_KEY (JSON.stringify (reviewsJson (stored ++ [r])))) := by
  unfold saveReview
  rw [hload]
  simp only [reviewsJson, List.map_append, List.map_cons, List.map_nil]

theorem saveReviews_reviews : ∀ (new stored : List Review) (ls : LocalStorage),
    getReviews ls = .ok (reviewsJson stored) → (∀ x ∈ stored, x.Safe) → (∀ x ∈ new, x.Safe) →
    ∃ ls1, saveReviews (new.map Review.toJson) ls = .ok ls1
      ∧ getReviews ls1 = .ok (reviewsJson (stored ++ new))
  | [], stored, ls, hload, _, _ => ⟨ls, rfl, by rw [List.append_nil]; exact hload⟩
  | r :: t, stored, ls, hload, hstored, hnew => by
    have hsafe : ∀ x ∈ stored ++ [r], x.Safe := by
      intro x hx
      rcases List.mem_append.mp hx with h | h
      · exact hstored x h
      · rw [List.mem_singleton] at h
        subst h
        exact hnew x (List.mem_cons_self _ _)
    obtain ⟨ls1, h1, h2⟩ := saveReviews_reviews t (stored ++ [r])
      (ls.setItem STORAGE_KEY (JSON.stringify (reviewsJson (stored ++ [r]))))
      (getReviews_setItem ls _ hsafe) hsafe (fun x hx => hnew x (List.mem_cons_of_mem _ hx))
    refine ⟨ls1, ?_, ?_⟩
    · simp only [List.map_cons, saveReviews, saveReview_review ls stored r hload, h1]
    · rw [h2, List.append_assoc]
      rfl

/-- C1: starting from a store that is absent or empty, or that holds the records
`stored`, calling `saveReview` on the reviews `new` one after the other succeeds, and
`getReviews` then returns the records of `stored` unchanged and in place followed by
those of `new` in the order of the calls; from the empty store, exactly `new`. -/
theorem saveReview_appends_in_order (ls : LocalStorage) (stored new : List Review)
    (hstart : (stored = [] ∧ (ls.getItem STORAGE_KEY = none ∨ ls.getItem STORAGE_KEY = some []))
      ∨ getReviews ls = .ok (reviewsJson stored))
    (hstored : ∀ x ∈ stored, x.Safe) (hnew : ∀ x ∈ new, x.Safe) :
    ∃ ls1, saveReviews (new.map Review.toJson) ls = .ok ls1
      ∧ getReviews ls1 = .ok (reviewsJson (stored ++ new))
      ∧ loadReviews ls1 = .ok (stored ++ new) := by
  have hload : getReviews ls = .ok (reviewsJson stored) := by
    rcases hstart with ⟨rfl, h⟩ | h
    · exact getReviews_empty ls h
    · exact h
  obtain ⟨ls1, h1, h2⟩ := saveReviews_reviews new stored ls hload hstored hnew
  refine ⟨ls1, h1, h2, ?_⟩
  have hall : ∀ x ∈ stored ++ new, x.Safe := by
    intro x hx
    rcases List.mem_append.mp hx with h | h
    · exact hstored x h
    · exact hnew x h
  unfold loadReviews
  rw [h2]
  simp only [reviewsJson, asReviews_toJson _ hall]

theorem displayReviews_storage (P : Platform) (app : App) :
    (displayReviews P app).app.storage = app.storage := by
  unfold displayReviews
  repeat' split
  all_goals rfl

theorem updateStatistics_storage (app : App) :
    (updateStatistics app).app.storage = app.storage := by
  unfold updateStatistics
  repeat' split
  all_goals rfl

theorem refresh_storage (P : Platform) (app : App) :
    ((displayReviews P app).andThen updateStatistics).app.storage = app.storage := by
  unfold Run.andThen
  split
  · rw [updateStatistics_storage, displayReviews_storage]
  · exact displayReviews_storage P app

theorem deleteReview_storage (P : Platform) (id : Int) (app : App) (reviews : List Review)
    (hload : loadReviews app.storage = .ok reviews) :
    (deleteReview P true id app).app.storage = app.storage.setItem STORAGE_KEY
      (JSON.stringify (reviewsJson (reviews.filter (fun review => decide (review.id ≠ id))))) := by
  simp only [deleteReview, if_true, hload]
  generalize hst : app.storage.setItem STORAGE_KEY
    (JSON.stringify (reviewsJson (reviews.filter (fun review => decide (review.id ≠ id))))) = st
  have h := refresh_storage P { app with storage := st }
  generalize ((displayReviews P { app with storage := st }).andThen updateStatistics) = run at h ⊢
  unfold Run.andThen
  split
  · exact h
  · exact h

/-- C2: after a confirmed `deleteReview(id)` the store holds exactly the previously
stored records whose id differs from `id`, in their stored order; none of them has
that id; and when no stored record has that id the collection is unchanged, the
stored text included when it is the text the script writes. -/
theorem deleteReview_removes_exactly (P : Platform) (id : Int) (app : App)
    (reviews : List Review) (hload : loadReviews app.storage = .ok reviews) :
    loadReviews (deleteReview P true id app).app.storage
        = .ok (reviews.filter (fun review => decide (review.id ≠ id)))
      ∧ (∀ review ∈ reviews.filter (fun review => decide (review.id ≠ id)), review.id ≠ id)
      ∧ ((∀ review ∈ reviews, review.id ≠ id) →
          loadReviews (deleteReview P true id app).app.storage = .ok reviews)
      ∧ ((∀ review ∈ reviews, review.id ≠ id) →
          app.storage.getItem STORAGE_KEY = some (JSON.stringify (reviewsJson reviews)) →
          (deleteReview P true id app).app.storage = app.storage) := by
  have hsafe := (loadReviews_eq app.storage reviews hload).2
  have hst := deleteReview_storage P id app reviews hload
  have hfsafe : ∀ x ∈ reviews.filter (fun review => decide (review.id ≠ id)), x.Safe :=
    fun x hx => hsafe x (List.mem_filter.mp hx).1
  have hmain := loadReviews_setItem app.storage _ hfsafe
  have hkeep : (∀ review ∈ reviews, review.id ≠ id) →
      reviews.filter (fun review => decide (review.id ≠ id)) = reviews := by
    intro h
    rw [List.filter_eq_self]
    intro x hx
    simpa using h x hx
  refine ⟨by rw [hst]; exact hmain, ?_, ?_, ?_⟩
  · intro review hr
    simpa using (List.mem_filter.mp hr).2
  · intro h
    rw [hst, hmain, hkeep h]
  · intro h htext
    rw [hst, hkeep h]
    funext k
    simp only [LocalStorage.setItem, LocalStorage.getItem] at htext ⊢
    split
    · rename_i hk
      rw [hk, htext]
    · rfl

/-- C3 as the code has it: `getReviews` returns the empty array when the key is absent
or holds the empty string, and otherwise whatever `JSON.parse` returns or throws on the
stored text; a `SyntaxError` of `JSON.parse` reaches the caller. -/
theorem getReviews_empty_or_parse (ls : LocalStorage) (data : JsString) :
    ((ls.getItem STORAGE_KEY = none ∨ ls.getItem STORAGE_KEY = some []) →
        getReviews ls = .ok (.arr []))
      ∧ (ls.getItem STORAGE_KEY = some data → data ≠ [] → getReviews ls = JSON.parse data)
      ∧ (ls.getItem STORAGE_KEY = some data → data ≠ [] → JSON.parse data = .syntaxError →
          getReviews ls = .syntaxError) := by
  refine ⟨getReviews_empty ls, ?_, ?_⟩
  · intro h hne
    simp only [getReviews, h, hne, if_false]
  · intro h hne hp
    simp only [getReviews, h, hne, if_false, hp]

/-- C3, counterexample: on a store whose text was cut off, `getReviews` does not
return the empty array; the `SyntaxError` of `JSON.parse` reaches the caller. -/
theorem getReviews_raises_on_corrupt_payload :
    getReviews corruptStorage = .syntaxError ∧ getReviews corruptStorage ≠ .ok (.arr []) := by
  have h : getReviews corruptStorage = .syntaxError := by rfl
  exact ⟨h, by rw [h]; intro e; cases e⟩

/-! ### The submit handler with a rating -/

theorem parseIntDigits_safe (neg : Bool) (s : JsString) (k : Int)
    (h : parseIntDigits neg s = .int k) : k.natAbs < safeBound := by
  have hfin : ∀ value count : Nat, finishParseInt neg value count = .int k →
      k.natAbs < safeBound := by
    intro value count hv
    unfold finishParseInt at hv
    split at hv
    · cases hv
    · split at hv
      · cases hv
      · rename_i hb
        cases hv
        split <;> omega
  unfold parseIntDigits at h
  split at h
  · exact hfin _ _ h
  · exact hfin _ _ h
  · exact hfin _ _ h

theorem parseInt_safe (s : JsString) (k : Int) (h : parseInt s = .int k) :
    k.natAbs < safeBound := by
  unfold parseInt at h
  split at h
  · exact parseIntDigits_safe _ _ k h
  · exact parseIntDigits_safe _ _ k h
  · exact parseIntDigits_safe _ _ k h

theorem submitForm_storage (P : Platform) (now : Int) (isoNow : JsString) (app : App)
    (stored : List Review) (hload : getReviews app.storage = .ok (reviewsJson stored))
    (hne : app.dom.ratingInput ≠ []) (hp : parseInt app.dom.ratingInput ≠ .unmodelled) :
    (submitForm P now isoNow app).app.storage = app.storage.setItem STORAGE_KEY
      (JSON.stringify (.arr (stored.map Review.toJson ++ [formData now isoNow app.dom]))) := by
  have hsave : saveReview (formData now isoNow app.dom) app.storage
      = .ok (app.storage.setItem STORAGE_KEY
          (JSON.stringify (.arr (stored.map Review.toJson ++ [formData now isoNow app.dom])))) := by
    unfold saveReview
    rw [hload]
    rfl
  simp only [submitForm, hne, hp, if_false, hsave]
  exact refresh_storage P _

theorem formData_review (now : Int) (isoNow : JsString) (dom : Dom) (k : Int)
    (hp : parseInt dom.ratingInput = .int k) :
    formData now isoNow dom = Review.toJson
      { id := now, rating := k, name := trim dom.nameInput, email := trim dom.emailInput,
        comment := trim dom.commentInput, date := isoNow } := by
  simp only [formData, hp, IntResult.toJson, Review.toJson]

theorem submitForm_loads (P : Platform) (now : Int) (isoNow : JsString) (app : App)
    (stored : List Review) (k : Int)
    (hload : loadReviews app.storage = .ok stored) (hnow : now.natAbs < safeBound)
    (hk : parseInt app.dom.ratingInput = .int k) :
    loadReviews (submitForm P now isoNow app).app.storage = .ok (stored ++
      [{ id := now, rating := k, name := trim app.dom.nameInput,
         email := trim app.dom.emailInput, comment := trim app.dom.commentInput,
         date := isoNow }]) := by
  obtain ⟨hget, hsafe⟩ := loadReviews_eq app.storage stored hload
  have hne : app.dom.ratingInput ≠ [] := by
    intro e
    rw [e] at hk
    cases hk
  have hp : parseInt app.dom.ratingInput ≠ .unmodelled := by
    rw [hk]
    intro e
    cases e
  rw [submitForm_storage P now isoNow app stored hget hne hp, formData_review now isoNow _ k hk]
  have hall : ∀ x ∈ stored ++
      [{ id := now, rating := k, name := trim app.dom.nameInput,
         email := trim app.dom.emailInput, comment := trim app.dom.commentInput,
         date := isoNow : Review }], x.Safe := by
    intro x hx
    rcases List.mem_append.mp hx with h | h
    · exact hsafe x h
    · rw [List.mem_singleton] at h
      subst h
      exact ⟨hnow, parseInt_safe _ k hk⟩
  have := loadReviews_setItem app.storage _ hall
  simpa only [reviewsJson, List.map_append, List.map_cons, List.map_nil] using this

/-- C8 as the code has it: the submit handler stores nothing when the draft rating
input is empty, and otherwise appends a record whose rating is `parseInt` of the
input, whatever integer that is; the rating is an integer from 1 to 5 when the input
is one of `1` to `5`. -/
theorem submitForm_stores_parsed_rating (P : Platform) (now : Int) (isoNow : JsString)
    (app : App) (stored : List Review)
    (hload : loadReviews app.storage = .ok stored) (hnow : now.natAbs < safeBound) :
    (app.dom.ratingInput = [] → (submitForm P now isoNow app).app.storage = app.storage)
      ∧ (app.dom.ratingInput ≠ [] → parseInt app.dom.ratingInput ≠ .unmodelled →
          (submitForm P now isoNow app).app.storage = app.storage.setItem STORAGE_KEY
            (JSON.stringify (.arr (stored.map Review.toJson ++ [formData now isoNow app.dom]))))
      ∧ (∀ k : Int, parseInt app.dom.ratingInput = .int k →
          loadReviews (submitForm P now isoNow app).app.storage = .ok (stored ++
            [{ id := now, rating := k, name := trim app.dom.nameInput,
               email := trim app.dom.emailInput, comment := trim app.dom.commentInput,
               date := isoNow }]))
      ∧ (∀ k : Int, 1 ≤ k → k ≤ 5 → app.dom.ratingInput = intToString k →
          parseInt app.dom.ratingInput = .int k) := by
  obtain ⟨hget, hsafe⟩ := loadReviews_eq app.storage stored hload
  refine ⟨?_, ?_, ?_, ?_⟩
  · intro hempty
    simp only [submitForm, hempty, if_true]
    rfl
  · intro hne hp
    exact submitForm_storage P now isoNow app stored hget hne hp
  · intro k hk
    exact submitForm_loads P now isoNow app stored k hload hnow hk
  · intro k h1 h5 hv
    rw [hv]
    interval_cases k <;> rfl

/-- C8, counterexample: with `6` in the draft rating input the submit handler does not
reject the submission; it stores a review whose rating is 6. -/
theorem submitForm_stores_rating_six :
    loadReviews (submitForm isoPlatform 1700000000000 "2023-11-14T22:13:20.000Z".toList
        draftSixApp).app.storage = .ok [draftSixReview]
      ∧ ¬ (1 ≤ draftSixReview.rating ∧ draftSixReview.rating ≤ 5) := by
  have h := submitForm_loads isoPlatform 1700000000000
    "2023-11-14T22:13:20.000Z".toList draftSixApp [] 6 (by rfl) (by decide) (by rfl)
  exact ⟨h, by decide⟩

/-! ### Statistics: the average -/

theorem log2Floor_spec : ∀ (fuel n : Nat), n ≤ fuel → 0 < n →
    2 ^ log2Floor fuel n ≤ n ∧ n < 2 ^ (log2Floor fuel n + 1)
  | 0, n, h, hn => by omega
  | fuel + 1, n, h, hn => by
    unfold log2Floor
    split
    · rename_i h2
      have ih := log2Floor_spec fuel (n / 2) (by omega) (by omega)
      rw [pow_succ, pow_succ, pow_succ] at *
      generalize 2 ^ log2Floor fuel (n / 2) = x at ih ⊢
      omega
    · simp
      omega

theorem floorLog2_spec (n : Nat) (hn : 0 < n) :
    2 ^ floorLog2 n ≤ n ∧ n < 2 ^ (floorLog2 n + 1) :=
  log2Floor_spec n n (Nat.le_refl n) hn

theorem divScale_ge (a n : Nat) (hn : 0 < n) (h1 : n ≤ a) (h5 : a ≤ 5 * n) :
    50 ≤ divScale a n := by
  obtain ⟨hn1, hn2⟩ := floorLog2_spec n hn
  obtain ⟨ha1, ha2⟩ := floorLog2_spec a (by omega)
  have hla : floorLog2 a < floorLog2 n + 4 := by
    by_contra hc
    have hle : 2 ^ (floorLog2 n + 4) ≤ 2 ^ floorLog2 a :=
      Nat.pow_le_pow_right (by omega) (by omega)
    have e : 2 ^ (floorLog2 n + 4) = 2 ^ (floorLog2 n + 1) * 8 := by
      rw [show floorLog2 n + 4 = floorLog2 n + 1 + 3 by omega, pow_add]
      norm_num
    omega
  unfold divScale
  simp only []
  by_cases hk : 52 + floorLog2 n - floorLog2 a = 49
  · have hnot : ¬ n * 2 ^ 52 ≤ a * 2 ^ 49 := by
      have e1 : a * 2 ^ 49 ≤ 5 * n * 2 ^ 49 := Nat.mul_le_mul_right _ h5
      have e2 : n * 2 ^ 52 = 8 * n * 2 ^ 49 := by ring
      have e3 : 0 < n * 2 ^ 49 := Nat.mul_pos hn (by positivity)
      have e4 : 5 * n * 2 ^ 49 = 5 * (n * 2 ^ 49) := by ring
      have e5 : 8 * n * 2 ^ 49 = 8 * (n * 2 ^ 49) := by ring
      omega
    rw [hk, if_neg hnot]
  · split <;> omega

theorem roundHalfEven_near (num den : Nat) (hden : 0 < den) :
    2 * (roundHalfEven num den * den) ≤ 2 * num + den
      ∧ 2 * num ≤ 2 * (roundHalfEven num den * den) + den := by
  have hdm := Nat.div_add_mod num den
  have hr := Nat.mod_lt num hden
  unfold roundHalfEven
  simp only []
  have e1 : (num / den + 1) * den = num / den * den + den := by ring
  have e2 : den * (num / den) = num / den * den := by ring
  rw [e2] at hdm
  split
  · omega
  · split
    · rw [e1]; omega
    · split
      · omega
      · rw [e1]; omega

/-- The tenths printed are within half a tenth of the quotient. -/
theorem tenths_near (a n k : Nat) (hn : 0 < n) (hk : 10 * n < 2 ^ k) :
    let m := roundHalfEven (a * 2 ^ k) n
    let t := (20 * m + 2 ^ k) / 2 ^ (k + 1)
    2 * (t * n) ≤ 20 * a + n ∧ 20 * a ≤ 2 * (t * n) + n := by
  intro m t
  obtain ⟨f1, f2⟩ := roundHalfEven_near (a * 2 ^ k) n hn
  have hK : 0 < 2 ^ (k + 1) := by positivity
  have g1 : 2 ^ (k + 1) * t ≤ 20 * m + 2 ^ k := Nat.mul_div_le _ _
  have g2 : 20 * m + 2 ^ k < 2 ^ (k + 1) * (t + 1) := Nat.lt_mul_div_succ _ hK
  change 2 * (m * n) ≤ 2 * (a * 2 ^ k) + n at f1
  change 2 * (a * 2 ^ k) ≤ 2 * (m * n) + n at f2
  rw [pow_succ] at g1 g2
  generalize 2 ^ k = K at *
  have p1 : (K * 2 * t) * n ≤ (20 * m + K) * n := Nat.mul_le_mul_right _ g1
  have p2 : (20 * m + K) * n < (K * 2 * (t + 1)) * n := Nat.mul_lt_mul_of_pos_right g2 hn
  constructor
  · by_contra hc
    have hc' : 20 * a + n + 1 ≤ 2 * (t * n) := by omega
    have p3 : (20 * a + n + 1) * K ≤ (2 * (t * n)) * K := Nat.mul_le_mul_right _ hc'
    nlinarith
  · by_contra hc
    have hc' : 2 * (t * n) + n + 1 ≤ 20 * a := by omega
    have p3 : (2 * (t * n) + n + 1) * K ≤ (20 * a) * K := Nat.mul_le_mul_right _ hc'
    nlinarith

/-- C4, counterexample: for seven ratings of 5 and thirteen of 4 the mean is 4.35 and
`updateStatistics` shows `4.3`, where rounding half up or half to even gives 4.4; for
three ratings of 5 and one of 4 the mean is 4.75 and it shows `4.8`, where rounding
half down gives 4.7.  No fixed rule for halves gives both. -/
theorem averageText_is_not_the_rounded_mean :
    sumRatings meanFourThirtyFive = 87 ∧ meanFourThirtyFive.length = 20
      ∧ averageText meanFourThirtyFive = "4.3".toList
      ∧ tenthsText (roundedMeanTenths .up 87 20) = "4.4".toList
      ∧ tenthsText (roundedMeanTenths .even 87 20) = "4.4".toList
      ∧ sumRatings meanFourSeventyFive = 19 ∧ meanFourSeventyFive.length = 4
      ∧ averageText meanFourSeventyFive = "4.8".toList
      ∧ tenthsText (roundedMeanTenths .down 19 4) = "4.7".toList := by
  refine ⟨by rfl, by rfl, by rfl, by rfl, by rfl, by rfl, by rfl, by rfl, by rfl⟩

theorem nearest_tenth_unique (a n t : Nat) (hn : 0 < n)
    (h1 : 2 * (t * n) ≤ 20 * a + n) (h2 : 20 * a ≤ 2 * (t * n) + n)
    (hnot : 2 * ((10 * a) % n) ≠ n) (rule : TieRule) : t = roundedMeanTenths rule a n := by
  have hdm := Nat.div_add_mod (10 * a) n
  have hr := Nat.mod_lt (10 * a) hn
  have e2 : n * (10 * a / n) = 10 * a / n * n := by ring
  rw [e2] at hdm
  unfold roundedMeanTenths
  simp only []
  generalize 10 * a / n = q at *
  generalize 10 * a % n = r at *
  split
  · rename_i hlt
    have hle : t ≤ q := by
      by_contra hc
      have : (q + 1) * n ≤ t * n := Nat.mul_le_mul_right _ (by omega)
      have e : (q + 1) * n = q * n + n := by ring
      omega
    have hge : q ≤ t := by
      by_contra hc
      have : (t + 1) * n ≤ q * n := Nat.mul_le_mul_right _ (by omega)
      have e : (t + 1) * n = t * n + n := by ring
      omega
    omega
  · split
    · rename_i hgt
      have hle : t ≤ q + 1 := by
        by_contra hc
        have : (q + 2) * n ≤ t * n := Nat.mul_le_mul_right _ (by omega)
        have e : (q + 2) * n = q * n + 2 * n := by ring
        omega
      have hge : q + 1 ≤ t := by
        by_contra hc
        have : t * n ≤ q * n := Nat.mul_le_mul_right _ (by omega)
        omega
      omega
    · omega

theorem foldl_ratings_bounds : ∀ (reviews : List Review) (acc : Int),
    (∀ r ∈ reviews, 1 ≤ r.rating ∧ r.rating ≤ 5) →
    acc + reviews.length ≤ reviews.foldl (fun sum review => sum + review.rating) acc
      ∧ reviews.foldl (fun sum review => sum + review.rating) acc ≤ acc + 5 * reviews.length
  | [], acc, _ => by simp
  | r :: t, acc, h => by
    have hr := h r (List.mem_cons_self _ _)
    have ih := foldl_ratings_bounds t (acc + r.rating) (fun x hx => h x (List.mem_cons_of_mem _ hx))
    simp only [List.foldl_cons, List.length_cons, Nat.cast_add, Nat.cast_one]
    omega

theorem averageText_near (reviews : List Review) (hne : reviews ≠ [])
    (hrange : ∀ r ∈ reviews, 1 ≤ r.rating ∧ r.rating ≤ 5) (hlen : reviews.length < 2 ^ 32) :
    ∃ t : Nat, averageText reviews = tenthsText t
      ∧ 2 * (t * reviews.length) ≤ 20 * (sumRatings reviews).natAbs + reviews.length
      ∧ 20 * (sumRatings reviews).natAbs ≤ 2 * (t * reviews.length) + reviews.length := by
  have hn : 0 < reviews.length := List.length_pos.mpr hne
  obtain ⟨hs1, hs2⟩ := foldl_ratings_bounds reviews 0 hrange
  unfold averageText
  change 0 + (reviews.length : Int) ≤ sumRatings reviews at hs1
  change sumRatings reviews ≤ 0 + 5 * (reviews.length : Int) at hs2
  generalize sumRatings reviews = s at hs1 hs2 ⊢
  have hk : 50 ≤ divScale s.natAbs reviews.length :=
    divScale_ge s.natAbs reviews.length hn (by omega) (by omega)
  have hpow : 10 * reviews.length < 2 ^ divScale s.natAbs reviews.length := by
    have : 2 ^ 50 ≤ 2 ^ divScale s.natAbs reviews.length := Nat.pow_le_pow_right (by omega) hk
    have : (2 : Nat) ^ 32 * 10 < 2 ^ 50 := by decide
    omega
  have hnear := tenths_near s.natAbs reviews.length (divScale s.natAbs reviews.length) hn hpow
  have hs0 : s ≠ 0 := by omega
  have hneg : decide (s < 0) = false := by
    simp only [decide_eq_false_iff_not]
    omega
  refine ⟨tenths (divide s reviews.length), ?_, ?_⟩
  · simp only [toFixed1, divide, hs0, if_false, hneg, Bool.false_and,
      Bool.false_eq_true]
  · simp only [divide, hs0, if_false, tenths]
    exact hnear

/-- C4 as the code has it: for the empty collection the average shown is `0.0`; for
a non-empty collection with ratings from 1 to 5 (and a length an array can have) it
is a number of tenths nearest to the mean, that is, within 0.05 of it; it is the mean
rounded to one decimal place whenever the mean is not exactly halfway between two
tenths, whatever the rule for halves. -/
theorem updateStatistics_average_nearest_tenth (app : App) (reviews : List Review)
    (hload : loadReviews app.storage = .ok reviews)
    (hrange : ∀ r ∈ reviews, 1 ≤ r.rating ∧ r.rating ≤ 5) (hlen : reviews.length < 2 ^ 32) :
    (reviews = [] → (updateStatistics app).app.dom.avgRating = "0.0".toList)
      ∧ (reviews ≠ [] → ∃ t : Nat, (updateStatistics app).app.dom.avgRating = tenthsText t
          ∧ 2 * (t * reviews.length) ≤ 20 * (sumRatings reviews).natAbs + reviews.length
          ∧ 20 * (sumRatings reviews).natAbs ≤ 2 * (t * reviews.length) + reviews.length
          ∧ (2 * ((10 * (sumRatings reviews).natAbs) % reviews.length) ≠ reviews.length →
              ∀ rule, t = roundedMeanTenths rule (sumRatings reviews).natAbs reviews.length)) := by
  constructor
  · intro hnil
    subst hnil
    simp only [updateStatistics, hload]
    rfl
  · intro hne
    obtain ⟨t, ht, h1, h2⟩ := averageText_near reviews hne hrange hlen
    have hn : 0 < reviews.length := List.length_pos.mpr hne
    have hlen0 : ¬ reviews.length = 0 := by omega
    refine ⟨t, ?_, h1, h2, fun hnot rule => nearest_tenth_unique _ _ t hn h1 h2 hnot rule⟩
    simp only [updateStatistics, hload, hlen0, if_false, List.foldl, Dom.setCount, ht]

/-! ### The theorems at concrete inputs -/

set_option maxRecDepth 100000

/-- C1 at a concrete input: from an empty browser store, saving the two sample
reviews and loading returns exactly those two, in order. -/
theorem saveReview_appends_in_order_witness :
    (∀ x ∈ sampleReviews, x.Safe)
      ∧ ∃ ls1, saveReviews (sampleReviews.map Review.toJson) emptyStorage = .ok ls1
        ∧ getReviews ls1 = .ok (reviewsJson ([] ++ sampleReviews))
        ∧ loadReviews ls1 = .ok ([] ++ sampleReviews) :=
  ⟨by decide, saveReview_appends_in_order emptyStorage [] sampleReviews
    (Or.inl ⟨rfl, Or.inl rfl⟩) (by decide) (by decide)⟩

/-- C2 at a concrete input: deleting the id of the first sample review leaves the
second one only. -/
theorem deleteReview_removes_exactly_witness :
    loadReviews (sampleApp "all".toList).storage = .ok sampleReviews
      ∧ loadReviews (deleteReview isoPlatform true 1704067200000
          (sampleApp "all".toList)).app.storage
        = .ok (sampleReviews.filter (fun review => decide (review.id ≠ 1704067200000)))
      ∧ sampleReviews.filter (fun review => decide (review.id ≠ 1704067200000))
        = sampleReviews.drop 1 :=
  ⟨by rfl, (deleteReview_removes_exactly isoPlatform 1704067200000 (sampleApp "all".toList)
    sampleReviews (by rfl)).1, by decide⟩

/-- C3 at concrete inputs: the empty array for a browser with nothing stored, the
outcome of `JSON.parse` for a stored text. -/
theorem getReviews_empty_or_parse_witness :
    getReviews emptyStorage = .ok (.arr [])
      ∧ getReviews sampleStorage = JSON.parse (JSON.stringify (reviewsJson sampleReviews)) :=
  ⟨(getReviews_empty_or_parse emptyStorage []).1 (Or.inl rfl),
    (getReviews_empty_or_parse sampleStorage (JSON.stringify (reviewsJson sampleReviews))).2.1
      (by rfl) (by decide)⟩

/-- C4 at a concrete input: for the ratings 5 and 3 the average shown is `4.0`, the
mean itself. -/
theorem updateStatistics_average_nearest_tenth_witness :
    loadReviews (sampleApp "all".toList).storage = .ok sampleReviews
      ∧ (∀ r ∈ sampleReviews, 1 ≤ r.rating ∧ r.rating ≤ 5)
      ∧ sampleReviews.length < 2 ^ 32
      ∧ (updateStatistics (sampleApp "all".toList)).app.dom.avgRating = "4.0".toList
      ∧ ∃ t : Nat, (updateStatistics (sampleApp "all".toList)).app.dom.avgRating = tenthsText t
          ∧ 2 * (t * sampleReviews.length) ≤ 20 * (sumRatings sampleReviews).natAbs
              + sampleReviews.length
          ∧ 20 * (sumRatings sampleReviews).natAbs ≤ 2 * (t * sampleReviews.length)
              + sampleReviews.length
          ∧ (2 * ((10 * (sumRatings sampleReviews).natAbs) % sampleReviews.length)
                ≠ sampleReviews.length →
              ∀ rule, t = roundedMeanTenths rule (sumRatings sampleReviews).natAbs
                sampleReviews.length) :=
  ⟨by rfl, by decide, by decide, by rfl,
    (updateStatistics_average_nearest_tenth (sampleApp "all".toList) sampleReviews (by rfl)
      (by decide) (by decide)).2 (by decide)⟩

/-- C5 at a concrete input: for the ratings 5 and 3 the counts shown are 0, 0, 1, 0, 1
and the total is 2. -/
theorem updateStatistics_counts_witness :
    loadReviews (sampleApp "all".toList).storage = .ok sampleReviews
      ∧ (∀ r ∈ sampleReviews, 1 ≤ r.rating ∧ r.rating ≤ 5)
      ∧ (updateStatistics (sampleApp "all".toList)).app.dom.countText 3
        = natToString (sampleReviews.countP (fun r => decide (r.rating = 3)))
      ∧ (updateStatistics (sampleApp "all".toList)).app.dom.countText 3 = "1".toList
      ∧ (updateStatistics (sampleApp "all".toList)).app.dom.countText 4 = "0".toList
      ∧ (updateStatistics (sampleApp "all".toList)).app.dom.totalReviews = "2".toList :=
  ⟨by rfl, by decide,
    (updateStatistics_counts (sampleApp "all".toList) sampleReviews (by rfl) (by decide)).2.1 3
      (by decide) (by decide),
    by rfl, by rfl, by rfl⟩

/-- C6 at the example of the specification: under `'all'` the review of 2024-01-02
comes first; under `'3'` only the review rated 3 is listed; and the list under `'all'`
is the stable sort by date of the stored collection. -/
theorem displayReviews_renders_stable_sort_witness :
    loadReviews (sampleApp "all".toList).storage = .ok sampleReviews
      ∧ (∀ r ∈ sampleReviews, (isoPlatform.dateValue r.date).isSome = true)
      ∧ displayedReviews isoPlatform "all".toList sampleReviews = some sampleReviews.reverse
      ∧ displayedReviews isoPlatform "3".toList sampleReviews = some (sampleReviews.drop 1)
      ∧ ∃ out, displayedReviews isoPlatform (sampleApp "all".toList).currentFilter sampleReviews
            = some out
          ∧ IsStableSortByDateDesc isoPlatform (selectedBy none sampleReviews) out
          ∧ (∀ other, IsStableSortByDateDesc isoPlatform (selectedBy none sampleReviews) other →
              other = out)
          ∧ (∀ html, out ≠ [] → renderCards isoPlatform out = some html →
              (displayReviews isoPlatform (sampleApp "all".toList)).app.dom.reviewsContainer
                = html) :=
  ⟨by rfl, by decide, by rfl, by rfl,
    displayReviews_renders_stable_sort isoPlatform (sampleApp "all".toList) sampleReviews none
      (by rfl) (by decide) rfl (fun k h => by cases h)⟩

/-- C7 at a concrete input: the cards of the sample reviews, one of whose comments is
a `script` element, hold the 36 `<` and 36 `>` of the two templates and no other. -/
theorem escapeHtml_keeps_markup_out_witness :
    ∃ html, renderCards isoPlatform sampleReviews = some html
      ∧ html.count '<' = 36 ∧ html.count '>' = 36
      ∧ escapeHtml "<script>alert('x')</script>".toList
        = "&lt;script&gt;alert(&#039;x&#039;)&lt;/script&gt;".toList := by
  have hsome : (renderCards isoPlatform sampleReviews).isSome = true := by rfl
  obtain ⟨html, hhtml⟩ := Option.isSome_iff_exists.mp hsome
  have h := escapeHtml_keeps_markup_out isoPlatform sampleReviews html hhtml
  refine ⟨html, hhtml, ?_, ?_, by rfl⟩
  · rw [h.2.2.1]; rfl
  · rw [h.2.2.2]; rfl

/-- C8 at a concrete input: with `3` in the draft rating input the handler stores a
review rated 3. -/
theorem submitForm_stores_parsed_rating_witness :
    loadReviews draftThreeApp.storage = .ok []
      ∧ loadReviews (submitForm isoPlatform 1700000000000 "2023-11-14T22:13:20.000Z".toList
          draftThreeApp).app.storage
        = .ok [{ draftSixReview with rating := 3 }] :=
  ⟨by rfl, (submitForm_stores_parsed_rating isoPlatform 1700000000000
    "2023-11-14T22:13:20.000Z".toList draftThreeApp [] (by rfl) (by decide)).2.2.1 3 (by rfl)⟩

/-- C9 at a concrete input: submitting the blank form over the sample store only adds
the warning toast. -/
theorem submitForm_without_rating_witness :
    (sampleApp "all".toList).dom.ratingInput = []
      ∧ (submitForm isoPlatform 1700000000000 "2023-11-14T22:13:20.000Z".toList
          (sampleApp "all".toList)).app.storage = (sampleApp "all".toList).storage
      ∧ (submitForm isoPlatform 1700000000000 "2023-11-14T22:13:20.000Z".toList
          (sampleApp "all".toList)).app.dom.toasts
        = [("Please select a rating".toList, "error".toList)] :=
  ⟨rfl, (submitForm_without_rating isoPlatform 1700000000000 "2023-11-14T22:13:20.000Z".toList
    (sampleApp "all".toList) rfl).2.1, by rfl⟩

/-- C10 at a concrete input: under the filter `'3'`, which selects one of the two
sample reviews, the count shown is `(2)`. -/
theorem displayReviews_count_unfiltered_witness :
    loadReviews (sampleApp "3".toList).storage = .ok sampleReviews
      ∧ (displayReviews isoPlatform (sampleApp "3".toList)).app.dom.reviewCount
        = '(' :: natToString sampleReviews.length ++ [')']
      ∧ '(' :: natToString sampleReviews.length ++ [')'] = "(2)".toList :=
  ⟨by rfl, displayReviews_count_unfiltered isoPlatform (sampleApp "3".toList) sampleReviews
    (some 3) (by rfl) (by rfl) (fun k h => by cases h; decide), by rfl⟩

end RatingWebpage
